import Mathlib

/-
Verification development for the two-pass assembler.

The definitions below are a shallow embedding of the C sources:
as_core_design.c/.h, as_mem_words.c/.h, as_symb_table.c/.h,
assembler_io.c, as_1st_scan.c, as_2nd_scan.c.  Machine integers are
modelled with Nat/Int with explicit reductions modulo powers of two
where the C code truncates; C strings are lists of characters; the
in-place mutation of the word lists, the symbol table and the external
list is modelled by explicit state passing.  Diagnostic printing and
allocation failures are not modelled (every allocation succeeds).
-/

namespace Asm

/-- Status indicators, from indicators.h. -/
inductive Ind where
  | ALL_GOOD | END_OF_LINE | UNFINISHED | INP_ERROR | ALLOC_ERR | DUP_ERR
  | NULL_ENC | PNT_ERR | VALID | INVALID_CHR | ALPHA_EXP | ALNUM_EXP
  | INT_EXP | TOO_LONG_STR | EMPTY_STR | EOF_ENC | PRFX_EXP | SFX_EXP
  deriving DecidableEq, Repr

namespace Ctype

/-- C isspace in the C locale: space, tab, newline, vertical tab, form feed,
carriage return. -/
def isspace (c : Char) : Bool :=
  c = ' ' || c = '\t' || c = '\n' || c = '\x0b' || c = '\x0c' || c = '\r'

/-- C isdigit. -/
def isdigit (c : Char) : Bool := '0' ≤ c && c ≤ '9'

/-- C isalpha in the C locale (the sources only see ASCII). -/
def isalpha (c : Char) : Bool := ('a' ≤ c && c ≤ 'z') || ('A' ≤ c && c ≤ 'Z')

/-- C isalnum. -/
def isalnum (c : Char) : Bool := isalpha c || isdigit c

/-- C isprint for ASCII: 0x20 through 0x7e. -/
def isprint (c : Char) : Bool := ' ' ≤ c && c ≤ '~'

end Ctype

/- ~~~ as_core_design.h constants ~~~ -/

def MAX_LINE_LEN : Nat := 80
def INITIAL_LOAD_ADSS : Nat := 100
def ADSS_DEC_LEN : Nat := 7
def MAX_SYMB_LEN : Nat := 31
def WORD_BIT_LEN : Nat := 24

/-- The machine word: C stores it in a signed long; only the low
WORD_BIT_LEN bits are meaningful.  We keep the C value as an Int. -/
abbrev Word := Int

/-- An address in the memory image (C: unsigned long). -/
abbrev Address := Nat

def WORD_MASK : Nat := 0xffffff
def NON_ARE : Nat := 0xfffff8
def ARE : Nat := 0x000007
def FUNCT : Nat := 0x0000f8
def DEST_REG : Nat := 0x000700
def DEST_ADSS : Nat := 0x001800
def SRC_REG : Nat := 0x00e000
def SRC_ADSS : Nat := 0x030000
def OPCODE : Nat := 0xfc0000

/-- ARE_set of as_core_design.h. -/
def ARE_A_set : Nat := 4
def ARE_R_set : Nat := 2
def ARE_E_set : Nat := 1

/-- The low WORD_BIT_LEN bits of a word, as the two's-complement bit
pattern that the C code observes (word_to_str reads exactly these bits). -/
def wbits (w : Word) : Nat := ((w : Int) % (2 ^ WORD_BIT_LEN : Int)).toNat

/-- set_word_field of as_mem_words.h:
mem_word = (mem_word & ~field_mask) | (((Word)set_val << st_bit) & field_mask).
All field masks lie inside the low 24 bits; every word this macro is applied
to in the sources has zero bits above bit 23 (they are built from 0 by this
macro, or are unobservable uninitialised bits that we model as 0), so
clearing the high bits here is faithful. -/
def set_word_field (field_mask : Nat) (mem_word : Word) (set_val : Int) (st_bit : Nat) : Word :=
  (((wbits mem_word &&& (WORD_MASK ^^^ field_mask)) |||
    (wbits ((set_val * 2 ^ st_bit : Int)) &&& field_mask) : Nat) : Int)

/-- long_to_s21b of as_mem_words.h: (num) % 0x100000l with C (truncated)
division, i.e. Int.tmod. -/
def long_to_s21b (num : Int) : Int := num.tmod 0x100000

/-- long_to_s24b of as_mem_words.h: (num) % 0x800000l with C (truncated)
division, i.e. Int.tmod. -/
def long_to_s24b (num : Int) : Int := num.tmod 0x800000

/-- char_to_word of as_mem_words.h: the unsigned byte value of the character.
Source characters are ASCII, so the unsigned-char cast is the code point. -/
def char_to_word (ch : Char) : Word := (ch.toNat : Int)

/-- get_symb_adss of as_core_design.h: ((unsigned long)rep_word) >> 3.
Replacement words are built from 0 by set_word_field, so their bits above
bit 23 are zero and the shift is division of the low bits by 8. -/
def get_symb_adss (rep_word : Word) : Nat := wbits rep_word / 8

/-- One hexadecimal digit character, lower case (hex_digits of word_to_str). -/
def hexDigit (n : Nat) : Char :=
  if n < 10 then Char.ofNat ('0'.toNat + n) else Char.ofNat ('a'.toNat + (n - 10))

/-- word_to_str of as_mem_words.c: the low 24 bits of the word as 6 lower-case
hex digits, most significant first (the loop masks 4 bits at a time from bit
WORD_BIT_LEN-4 down to bit 0). -/
def word_to_str (mem_word : Word) : List Char :=
  [20, 16, 12, 8, 4, 0].map (fun sh => hexDigit ((wbits mem_word >>> sh) &&& 0xf))

/-- adss_to_str of as_mem_words.c: ADSS_DEC_LEN decimal digits of the address,
most significant first, zero padded; digits beyond the 7 printed ones are
discarded (the loop peels % 10 / 10 seven times). -/
def adss_to_str (adss : Address) : List Char :=
  [6, 5, 4, 3, 2, 1, 0].map (fun i => Char.ofNat ('0'.toNat + (adss : Nat) / 10 ^ i % 10))

/-- Join records with a newline between consecutive records and none after
the last one - the printing discipline shared by pnt_word_list,
pnt_ext_list and form_ent_file. -/
def join_lines (ls : List (List Char)) : List Char :=
  match ls with
  | [] => []
  | x :: xs => x ++ xs.flatMap (fun l => '\n' :: l)

/-- str_to_long of as_mem_words.c.  Returns the status and the parsed value
(the value is meaningful only when the status is ALL_GOOD; in C *res_ptr is
left unchanged on error).  C long overflow (undefined behaviour in the
source) is not modelled: the value is exact. -/
def str_to_long (str : List Char) : Ind × Int :=
  match str with
  | [] => (Ind.EMPTY_STR, 0)
  | '-' :: rest =>
      if rest = [] then (Ind.INT_EXP, 0) else str_to_long_digits rest (-1)
  | '+' :: rest =>
      if rest = [] then (Ind.INT_EXP, 0) else str_to_long_digits rest 1
  | rest => str_to_long_digits rest 1
where
  /-- The digit-accumulation loop of str_to_long. -/
  str_to_long_digits (str : List Char) (sign : Int) : Ind × Int :=
    let rec go : List Char → Int → Ind × Int
      | [], acc => (Ind.ALL_GOOD, sign * acc)
      | c :: rest, acc =>
          if Ctype.isdigit c then go rest (acc * 10 + ((c.toNat : Int) - ('0'.toNat : Int)))
          else (Ind.INT_EXP, 0)
    go str 0

/-- get_token of assembler_io.c: skip white characters, then either the end
of the line (empty token), a single-comma token, or a maximal run of
characters that are not white, not a comma and not the end.  Returns the
token and the rest of the line (the C function advances *input).  The
MAX_LINE_LEN read limit never binds because lines are at most MAX_LINE_LEN
characters, so it is not modelled. -/
def get_token : List Char → List Char × List Char
  | [] => ([], [])
  | c :: rest =>
      if Ctype.isspace c then get_token rest
      else if c = ',' then ([','], rest)
      else
        let t := (c :: rest).takeWhile (fun x => !(x = ',' || Ctype.isspace x))
        (t, (c :: rest).drop t.length)

/- ~~~ as_core_design: instruction table, validators ~~~ -/

/-- adss_method of as_core_design.h. -/
inductive AdssMethod where
  | imediate_a | direct_a | relative_a | direct_reg_a
  deriving DecidableEq, Repr

/-- The two-bit encoding of an addressing method (the enum value in C). -/
def AdssMethod.toNat : AdssMethod → Nat
  | .imediate_a => 0
  | .direct_a => 1
  | .relative_a => 2
  | .direct_reg_a => 3

/-- Instruction of as_core_design.h. -/
structure Instruction where
  op_name : List Char
  op_code : Nat
  funct : Nat
  opnd_num : Nat
  src_imed : Bool
  src_drct : Bool
  src_rltv : Bool
  src_reg : Bool
  des_imed : Bool
  des_drct : Bool
  des_rltv : Bool
  des_reg : Bool
  deriving DecidableEq, Repr

/-- inst_table of find_ass_inst (as_core_design.c), in source order. -/
def inst_table : List Instruction :=
  [⟨"mov".data, 0, 0, 2, true, true, false, true, false, true, false, true⟩,
   ⟨"cmp".data, 1, 0, 2, true, true, false, true, true, true, false, true⟩,
   ⟨"add".data, 2, 1, 2, true, true, false, true, false, true, false, true⟩,
   ⟨"sub".data, 2, 2, 2, true, true, false, true, false, true, false, true⟩,
   ⟨"lea".data, 4, 0, 2, false, true, false, false, false, true, false, true⟩,
   ⟨"clr".data, 5, 1, 1, false, false, false, false, false, true, false, true⟩,
   ⟨"not".data, 5, 2, 1, false, false, false, false, false, true, false, true⟩,
   ⟨"inc".data, 5, 3, 1, false, false, false, false, false, true, false, true⟩,
   ⟨"dec".data, 5, 4, 1, false, false, false, false, false, true, false, true⟩,
   ⟨"jmp".data, 9, 1, 1, false, false, false, false, false, true, true, false⟩,
   ⟨"bne".data, 9, 2, 1, false, false, false, false, false, true, true, false⟩,
   ⟨"jsr".data, 9, 3, 1, false, false, false, false, false, true, true, false⟩,
   ⟨"red".data, 12, 0, 1, false, false, false, false, false, true, false, true⟩,
   ⟨"prn".data, 13, 0, 1, false, false, false, false, true, true, false, true⟩,
   ⟨"rts".data, 14, 0, 0, false, false, false, false, false, false, false, false⟩,
   ⟨"stop".data, 15, 0, 0, false, false, false, false, false, false, false, false⟩]

/-- find_ass_inst of as_core_design.c: scan the table for the name. -/
def find_ass_inst (str : List Char) : Option Instruction :=
  inst_table.find? (fun inst => inst.op_name = str)

/-- guide_num of as_core_design.h. -/
inductive GuideNum where
  | g_data | g_string | g_entry | g_extern
  deriving DecidableEq, Repr

/-- guide_check of as_core_design.c (none plays the role of -1). -/
def guide_check (str : List Char) : Option GuideNum :=
  if str = "data".data then some .g_data
  else if str = "string".data then some .g_string
  else if str = "entry".data then some .g_entry
  else if str = "extern".data then some GuideNum.g_extern
  else none

/-- reg_check of as_core_design.h: an 'r' followed by exactly one character
between MIN_REG_CHR and MAX_REG_CHR; the result is the register index
(none plays the role of -1). -/
def reg_check (str : List Char) : Option Nat :=
  match str with
  | ['r', c] => if '0' ≤ c && c ≤ '7' then some (c.toNat - '0'.toNat) else none
  | _ => none

/-- is_reserved of as_core_design.h. -/
def is_reserved (str : List Char) : Bool :=
  (find_ass_inst str).isSome || (guide_check str).isSome || (reg_check str).isSome

/-- The character-scanning loop of is_legal_symb: indices 1 .. MAX_SYMB_LEN-1
are checked for being alphanumeric; the name is too long when index
MAX_SYMB_LEN is still not the terminating NUL. -/
def is_legal_symb_rest (str : List Char) (i : Nat) : Ind :=
  match str with
  | [] => Ind.VALID
  | c :: rest =>
      if i < MAX_SYMB_LEN then
        if Ctype.isalnum c then is_legal_symb_rest rest (i + 1) else Ind.ALNUM_EXP
      else Ind.TOO_LONG_STR

/-- is_legal_symb of as_core_design.c. -/
def is_legal_symb (str : List Char) : Ind :=
  match str with
  | [] => Ind.EMPTY_STR
  | c :: rest =>
      if !Ctype.isalpha c then Ind.ALPHA_EXP
      else if is_reserved str then Ind.DUP_ERR
      else is_legal_symb_rest rest 1

/-- The index of the last non-white character of a list, if any (the
non_white_i bookkeeping of str_check). -/
def last_non_white_idx (l : List Char) : Option Nat :=
  (List.range l.length).foldl
    (fun acc i => if Ctype.isspace (l.getD i ' ') then acc else some i) none

/-- The index of the first non-printable character of a list, if any (the
non_pnt_i bookkeeping of str_check). -/
def first_non_print_idx (l : List Char) : Option Nat :=
  (List.range l.length).foldl
    (fun acc i =>
      match acc with
      | some j => some j
      | none => if Ctype.isprint (l.getD i ' ') then none else some i) none

/-- str_check of as_core_design.c: skip leading white space, require a
leading double quote, require the last non-white character of the rest
to be a double quote, require every character strictly inside to be
printable; the output string is the inside. -/
def str_check (input : List Char) : Ind × List Char :=
  let trimmed := input.dropWhile (fun c => Ctype.isspace c)
  match trimmed with
  | [] => (Ind.EMPTY_STR, [])
  | c :: rest =>
      if c ≠ '"' then (Ind.PRFX_EXP, [])
      else
        match last_non_white_idx rest with
        | none => (Ind.SFX_EXP, rest)
        | some nw =>
            if rest.getD nw ' ' ≠ '"' then (Ind.SFX_EXP, rest)
            else
              match first_non_print_idx rest with
              | some np =>
                  if np < nw then (Ind.INVALID_CHR, rest)
                  else (Ind.VALID, rest.take nw)
              | none => (Ind.VALID, rest.take nw)

/- ~~~ as_symb_table ~~~ -/

/-- Symbol of as_core_design.h. -/
structure Symbol where
  name : List Char
  rep_word : Word
  is_extern : Bool
  is_entry : Bool
  is_data : Bool
  deriving DecidableEq, Repr

def SYMBT_HSIZE : Nat := 58

/-- SymbolTable: the hash-table array of SYMBT_HSIZE bucket lists; the
head of each list is the most recently installed symbol of that bucket. -/
abbrev SymbolTable := List (List Symbol)

/-- intlz_symbt of as_symb_table.c: every bucket empty. -/
def intlz_symbt : SymbolTable := List.replicate SYMBT_HSIZE []

/-- symb_hash of as_symb_table.c: hashval = *str + 31*hashval over the
characters, in unsigned int (32-bit, wrapping) arithmetic, then modulo
SYMBT_HSIZE. -/
def symb_hash (str : List Char) : Nat :=
  (str.foldl (fun hashval c => (c.toNat + 31 * hashval) % 2 ^ 32) 0) % SYMBT_HSIZE

/-- symb_lookup of as_symb_table.c: first symbol with that name in the
bucket selected by the hash value. -/
def symb_lookup (table : SymbolTable) (str : List Char) : Option Symbol :=
  (table.getD (symb_hash str) []).find? (fun s => s.name = str)

/-- symb_inst of as_symb_table.c: DUP_ERR and no change if the name is
already present, otherwise prepend the new symbol to its bucket.
Allocation always succeeds in the model. -/
def symb_inst (table : SymbolTable) (name : List Char) (rep_word : Word)
    ( is_extern is_entry is_data : Bool) : Ind × SymbolTable :=
  if (symb_lookup table name).isSome then (Ind.DUP_ERR, table)
  else
    let h := symb_hash name
    (Ind.ALL_GOOD, table.set h (⟨name, rep_word, is_extern, is_entry, is_data⟩ :: table.getD h []))

/-- inc_data of as_symb_table.c: add inc_val to the non-ARE field (the
address) of every data symbol's replacement word. -/
def inc_data (table : SymbolTable) (inc_val : Nat) : SymbolTable :=
  table.map (List.map (fun s =>
    if s.is_data = true then
      { s with rep_word := set_word_field NON_ARE s.rep_word ((get_symb_adss s.rep_word + inc_val : Nat) : Int) 3 }
    else s))

/-- The entry lines that form_ent_file of as_symb_table.c prints: scanning
the buckets in index order and each bucket from its head, every entry
symbol contributes "name address". -/
def ent_lines (table : SymbolTable) : List (List Char) :=
  table.flatMap (fun bucket =>
    (bucket.filter (fun s => s.is_entry = true)).map (fun s =>
      s.name ++ ' ' :: adss_to_str (wbits s.rep_word / 8)))

/-- form_ent_file of as_symb_table.c: no file when there is no entry
symbol; otherwise the lines joined by newlines (a newline only between
records). -/
def form_ent_file (table : SymbolTable) : Option (List Char) :=
  match ent_lines table with
  | [] => none
  | l :: ls => some (join_lines (l :: ls))

/- ~~~ as_mem_words: word lists, external list, printing ~~~ -/

/-- WordList of as_mem_words.h: an ordered sequence of memory words
(word_list_add appends at the tail; the size field is the length). -/
abbrev WordList := List Word

/-- The lines printed by pnt_word_list of as_mem_words.c: each word as
"address word" with the address in 7 decimal digits and the word in 6 hex
digits, consecutive addresses starting at curr_adss. -/
def pnt_word_lines (wlist : WordList) (curr_adss : Address) : List (List Char) :=
  match wlist with
  | [] => []
  | w :: rest => (adss_to_str curr_adss ++ ' ' :: word_to_str w) :: pnt_word_lines rest (curr_adss + 1)

/-- pnt_word_list of as_mem_words.c: the lines joined by newlines; no
newline after the last word. -/
def pnt_word_list (wlist : WordList) (curr_adss : Address) : List Char :=
  join_lines (pnt_word_lines wlist curr_adss)

/-- ExtList of as_mem_words.h: the list of (external symbol name, code-image
address) pairs; ext_list_add prepends, so the head is the most recent. -/
abbrev ExtList := List (List Char × Address)

/-- ext_list_add of as_mem_words.c: prepend the new pair. -/
def ext_list_add (new_name : List Char) (new_adss : Address) (list : ExtList) : ExtList :=
  (new_name, new_adss) :: list

/-- The lines printed by pnt_ext_list of as_mem_words.c, in list order
(head of the list first). -/
def pnt_ext_lines (elist : ExtList) : List (List Char) :=
  elist.map (fun p => p.1 ++ ' ' :: adss_to_str p.2)

/-- pnt_ext_list of as_mem_words.c: the lines joined by newlines; no
newline after the last record. -/
def pnt_ext_list (elist : ExtList) : List Char :=
  join_lines (pnt_ext_lines elist)

/-- form_ext_file of as_mem_words.c: no file when the list is empty,
otherwise the printed list. -/
def form_ext_file (elist : ExtList) : Option (List Char) :=
  if elist = [] then none else some (pnt_ext_list elist)

/-- create_ob_file of assembler_io.c: the header "code_size data_size"
terminated by a newline, then the code image starting at
INITIAL_LOAD_ADSS, then one newline, then the data image starting at
INITIAL_LOAD_ADSS + code_size. -/
def create_ob_file (code_img data_img : WordList) : List Char :=
  (toString code_img.length).data ++ ' ' :: (toString data_img.length).data ++
    '\n' :: pnt_word_list code_img INITIAL_LOAD_ADSS ++
    '\n' :: pnt_word_list data_img (INITIAL_LOAD_ADSS + code_img.length)

/- ~~~ assembler_io: validators ~~~ -/

/-- symb_check of assembler_io.c: ALL_GOOD when the name is legal,
INP_ERROR (with a printed diagnostic, not modelled) otherwise. -/
def symb_check (symb_name : List Char) : Ind :=
  match is_legal_symb symb_name with
  | Ind.EMPTY_STR => Ind.INP_ERROR
  | Ind.ALPHA_EXP => Ind.INP_ERROR
  | Ind.ALNUM_EXP => Ind.INP_ERROR
  | Ind.TOO_LONG_STR => Ind.INP_ERROR
  | Ind.DUP_ERR => Ind.INP_ERROR
  | _ => Ind.ALL_GOOD

/-- comma_check of assembler_io.c: read the next token; END_OF_LINE when
the line ended, INP_ERROR when it is not a comma.  Returns the rest of
the line. -/
def comma_check (line : List Char) : Ind × List Char :=
  let (token, rest) := get_token line
  if token = [] then (Ind.END_OF_LINE, rest)
  else if token ≠ [','] then (Ind.INP_ERROR, rest)
  else (Ind.ALL_GOOD, rest)

/-- line_end_check of assembler_io.c: ALL_GOOD when no token is left. -/
def line_end_check (line : List Char) : Ind :=
  if (get_token line).1 = [] then Ind.ALL_GOOD else Ind.INP_ERROR

/-- get_data_word of assembler_io.c: the next token must exist, must not be
a comma and must parse as a decimal integer; the resulting data word is
the integer reduced by long_to_s24b.  On error the word is none (in C
*res_ptr is left unchanged). -/
def get_data_word (line : List Char) : Ind × Option Word × List Char :=
  let (token, rest) := get_token line
  if token = [] then (Ind.INP_ERROR, none, rest)
  else if token = [','] then (Ind.INP_ERROR, none, rest)
  else
    let (st, v) := str_to_long token
    if st = Ind.INT_EXP then (Ind.INP_ERROR, none, rest)
    else (Ind.ALL_GOOD, some (long_to_s24b v), rest)

/-- get_char_string of assembler_io.c: str_check plus diagnostics. -/
def get_char_string (line : List Char) : Ind × List Char :=
  let (st, out) := str_check line
  (if st = Ind.VALID then Ind.ALL_GOOD else Ind.INP_ERROR, out)

/- ~~~ as_1st_scan ~~~ -/

/-- Operand of as_core_design.h.  The C union is flattened: only the field
selected by adss_method is ever read.  A C Operand starts uninitialised;
the defaults stand for that unobservable garbage. -/
structure Operand where
  adss_method : AdssMethod := .imediate_a
  mem_word : Word := 0
  symb_ptr : Option Symbol := none
  reg_index : Nat := 0
  deriving DecidableEq, Repr

/-- The state built by the first scan: the code image, the data image and
the symbol table. -/
structure St1 where
  code : WordList
  data : WordList
  table : SymbolTable
  deriving DecidableEq, Repr

/-- get_imed_opnd of as_1st_scan.c: the characters after '#' must be a
decimal integer; the operand word gets the value (as signed 21 bits) in
its non-ARE field and A in its ARE field. -/
def get_imed_opnd (num_str : List Char) (opnd : Operand) : Ind × Operand :=
  match str_to_long num_str with
  | (Ind.EMPTY_STR, _) => (Ind.INP_ERROR, opnd)
  | (Ind.INT_EXP, _) => (Ind.INP_ERROR, opnd)
  | (_, res_val) =>
      let w := set_word_field NON_ARE opnd.mem_word (long_to_s21b res_val) 3
      let w := set_word_field ARE w (ARE_A_set : Int) 0
      (Ind.ALL_GOOD, { opnd with adss_method := .imediate_a, mem_word := w })

/-- new_symb_add_1 of as_1st_scan.c: validate the name, build the
replacement word (ARE: E for external, R otherwise; non-ARE: the address),
and install the symbol with is_entry = 0.  Allocation always succeeds in
the model. -/
def new_symb_add_1 (table : SymbolTable) (name : List Char) (rep_adss : Address)
    ( is_extern is_data : Bool) : Ind × SymbolTable :=
  if symb_check name = Ind.INP_ERROR then (Ind.INP_ERROR, table)
  else
    let rep_word := set_word_field ARE (0 : Word) ((if is_extern then ARE_E_set else ARE_R_set : Nat) : Int) 0
    let rep_word := set_word_field NON_ARE rep_word ((rep_adss : Nat) : Int) 3
    match symb_inst table name rep_word is_extern false is_data with
    | (Ind.ALL_GOOD, table') => (Ind.ALL_GOOD, table')
    | (_, table') => (Ind.INP_ERROR, table')

/-- get_opnd_1 of as_1st_scan.c: read one token and classify it as an
operand; relative and direct operands only get their addressing method
set here (and their symbol name syntax checked). -/
def get_opnd_1 (line : List Char) (opnd : Operand) : Ind × Operand × List Char :=
  let (token, rest) := get_token line
  if token = [] then (Ind.INP_ERROR, opnd, rest)
  else if token = [','] then (Ind.INP_ERROR, opnd, rest)
  else if token.headD ' ' = '#' then
    let (st, opnd') := get_imed_opnd token.tail opnd
    (st, opnd', rest)
  else
    match reg_check token with
    | some reg_i => (Ind.ALL_GOOD, { opnd with adss_method := .direct_reg_a, reg_index := reg_i }, rest)
    | none =>
        if token.headD ' ' = '&' then
          (symb_check token.tail, { opnd with adss_method := .relative_a }, rest)
        else
          (symb_check token, { opnd with adss_method := .direct_a }, rest)

/-- inst_opnd_match of as_1st_scan.c: the addressing method of the operand
must be permitted for the source/destination slot of the instruction. -/
def inst_opnd_match (inst : Instruction) (opnd : Operand) (is_source : Bool) : Ind :=
  if is_source then
    if (opnd.adss_method = .imediate_a && inst.src_imed = false) ||
       (opnd.adss_method = .direct_a && inst.src_drct = false) ||
       (opnd.adss_method = .relative_a && inst.src_rltv = false) ||
       (opnd.adss_method = .direct_reg_a && inst.src_reg = false) then Ind.INP_ERROR
    else Ind.ALL_GOOD
  else
    if (opnd.adss_method = .imediate_a && inst.des_imed = false) ||
       (opnd.adss_method = .direct_a && inst.des_drct = false) ||
       (opnd.adss_method = .relative_a && inst.des_rltv = false) ||
       (opnd.adss_method = .direct_reg_a && inst.des_reg = false) then Ind.INP_ERROR
    else Ind.ALL_GOOD

/-- get_inst_opnds_1 of as_1st_scan.c: read the operand line according to
the arity of the instruction (the && chains of the source short-circuit:
a failing step stops the parse). -/
def get_inst_opnds_1 (line : List Char) (inst : Instruction) (src des : Operand) :
    Ind × Operand × Operand :=
  match inst.opnd_num with
  | 0 => (line_end_check line, src, des)
  | 1 =>
      let (st, des', rest) := get_opnd_1 line des
      if st ≠ Ind.ALL_GOOD then (Ind.INP_ERROR, src, des')
      else if inst_opnd_match inst des' false ≠ Ind.ALL_GOOD then (Ind.INP_ERROR, src, des')
      else if line_end_check rest ≠ Ind.ALL_GOOD then (Ind.INP_ERROR, src, des')
      else (Ind.ALL_GOOD, src, des')
  | 2 =>
      let (st, src', rest) := get_opnd_1 line src
      if st ≠ Ind.ALL_GOOD then (Ind.INP_ERROR, src', des)
      else if inst_opnd_match inst src' true ≠ Ind.ALL_GOOD then (Ind.INP_ERROR, src', des)
      else
        let (cst, rest2) := comma_check rest
        if cst ≠ Ind.ALL_GOOD then (Ind.INP_ERROR, src', des)
        else
          let (st2, des', rest3) := get_opnd_1 rest2 des
          if st2 ≠ Ind.ALL_GOOD then (Ind.INP_ERROR, src', des')
          else if inst_opnd_match inst des' false ≠ Ind.ALL_GOOD then (Ind.INP_ERROR, src', des')
          else if line_end_check rest3 ≠ Ind.ALL_GOOD then (Ind.INP_ERROR, src', des')
          else (Ind.ALL_GOOD, src', des')
  | _ => (Ind.INP_ERROR, src, des)

/-- creat_inst_word of as_1st_scan.c: the first memory word of an
instruction statement. -/
def creat_inst_word (inst : Instruction) (src_opnd des_opnd : Operand) : Word :=
  let result : Word := 0
  let result := set_word_field ARE result (ARE_A_set : Int) 0
  let result := set_word_field FUNCT result (inst.funct : Int) 3
  let result := set_word_field OPCODE result (inst.op_code : Int) 18
  if inst.opnd_num > 0 then
    let result := set_word_field DEST_ADSS result (des_opnd.adss_method.toNat : Int) 11
    let result := set_word_field DEST_REG result
      ((if des_opnd.adss_method = .direct_reg_a then des_opnd.reg_index else 0 : Nat) : Int) 8
    if inst.opnd_num > 1 then
      let result := set_word_field SRC_ADSS result (src_opnd.adss_method.toNat : Int) 16
      set_word_field SRC_REG result
        ((if src_opnd.adss_method = .direct_reg_a then src_opnd.reg_index else 0 : Nat) : Int) 13
    else
      set_word_field (SRC_REG ||| SRC_ADSS) result 0 13
  else
    set_word_field (DEST_REG ||| DEST_ADSS ||| SRC_REG ||| SRC_ADSS) result 0 8

/-- opnd_word_add_1 of as_1st_scan.c: append the operand's extra memory
word to the code image - the encoded word for an immediate operand, a
placeholder 0 for a direct or relative operand, nothing for a register. -/
def opnd_word_add_1 (opnd : Operand) (code_img : WordList) : WordList :=
  match opnd.adss_method with
  | .imediate_a => code_img ++ [opnd.mem_word]
  | .direct_a => code_img ++ [(0 : Word)]
  | .relative_a => code_img ++ [(0 : Word)]
  | .direct_reg_a => code_img

/-- update_code_img_1 of as_1st_scan.c: parse the operands, and only when
the code image is wanted (the pointer is not NULL, here: use = true) add
the first instruction word and the operands' words. -/
def update_code_img_1 (line : List Char) (inst : Instruction) (use : Bool)
    (code_img : WordList) : Ind × WordList :=
  match get_inst_opnds_1 line inst {} {} with
  | (Ind.ALL_GOOD, src_opnd, des_opnd) =>
      if use then
        let code_img := code_img ++ [creat_inst_word inst src_opnd des_opnd]
        match inst.opnd_num with
        | 0 => (Ind.ALL_GOOD, code_img)
        | 1 => (Ind.ALL_GOOD, opnd_word_add_1 des_opnd code_img)
        | _ => (Ind.ALL_GOOD, opnd_word_add_1 des_opnd (opnd_word_add_1 src_opnd code_img))
      else (Ind.ALL_GOOD, code_img)
  | (_, _, _) => (Ind.INP_ERROR, code_img)

/-- proc_inst_1 of as_1st_scan.c: optionally install the declared label
(address: current code size + INITIAL_LOAD_ADSS, or 0 when the image is
not built), then look up the instruction and process its operand line. -/
def proc_inst_1 (arg_line : List Char) (inst_name symb_name : List Char)
    (is_symb_dec : Bool) (use : Bool) (st : St1) : Ind × St1 :=
  let (dec_st, table') :=
    if is_symb_dec then
      new_symb_add_1 st.table symb_name
        (if use then st.code.length + INITIAL_LOAD_ADSS else 0) false false
    else (Ind.ALL_GOOD, st.table)
  if dec_st = Ind.INP_ERROR then (Ind.INP_ERROR, { st with table := table' })
  else
    match find_ass_inst inst_name with
    | none => (Ind.INP_ERROR, { st with table := table' })
    | some inst =>
        let (ust, code') := update_code_img_1 arg_line inst use st.code
        (ust, { st with table := table', code := code' })

/-- The while loop of proc_data_guide: a comma then another parameter,
until the end of the line.  The fuel only bounds the recursion; every
iteration consumes at least one character, so the initial fuel
(line length + 1) is never exhausted. -/
def pdg_loop : Nat → List Char → Bool → WordList → Ind × WordList
  | 0, _, _, data_img => (Ind.INP_ERROR, data_img)
  | fuel + 1, line, use, data_img =>
      let (cst, rest) := comma_check line
      if cst ≠ Ind.ALL_GOOD then (cst, data_img)
      else
        match get_data_word rest with
        | (Ind.ALL_GOOD, some w, rest2) =>
            pdg_loop fuel rest2 use (if use then data_img ++ [w] else data_img)
        | (_, _, _) => (Ind.INP_ERROR, data_img)

/-- proc_data_guide of as_1st_scan.c: a non-empty comma-separated list of
numeric parameters, each appended to the data image (when wanted). -/
def proc_data_guide (line : List Char) (use : Bool) (data_img : WordList) : Ind × WordList :=
  match get_data_word line with
  | (Ind.ALL_GOOD, some w, rest) =>
      let data1 := if use then data_img ++ [w] else data_img
      let (lst, data2) := pdg_loop (rest.length + 1) rest use data1
      if lst = Ind.INP_ERROR then (Ind.INP_ERROR, data2) else (Ind.ALL_GOOD, data2)
  | (_, _, _) => (Ind.INP_ERROR, data_img)

/-- proc_string_guide of as_1st_scan.c: a quoted printable string; every
character and a terminating zero word are appended to the data image
(when wanted). -/
def proc_string_guide (line : List Char) (use : Bool) (data_img : WordList) : Ind × WordList :=
  let (st, char_str) := get_char_string line
  if st = Ind.INP_ERROR then (Ind.INP_ERROR, data_img)
  else if use then (Ind.ALL_GOOD, data_img ++ char_str.map char_to_word ++ [(0 : Word)])
  else (Ind.ALL_GOOD, data_img)

/-- proc_extern_guide_1 of as_1st_scan.c: one symbol name, installed as an
external symbol with address 0, and nothing after it. -/
def proc_extern_guide_1 (line : List Char) (table : SymbolTable) : Ind × SymbolTable :=
  let (token, rest) := get_token line
  if token = [] then (Ind.INP_ERROR, table)
  else
    match new_symb_add_1 table token 0 true false with
    | (Ind.INP_ERROR, table') => (Ind.INP_ERROR, table')
    | (_, table') => (line_end_check rest, table')

/-- proc_guidance_1 of as_1st_scan.c: dispatch on the guidance statement
name; .data/.string first install the declared label as a data symbol
whose address is the current data-image size (or 0 when the image is not
built), .extern installs the external symbol (a label is only warned
about), .entry is skipped in this scan. -/
def proc_guidance_1 (arg_line : List Char) (stmnt_name symb_name : List Char)
    (is_symb_dec : Bool) (use : Bool) (st : St1) : Ind × St1 :=
  if stmnt_name = [] then (Ind.INP_ERROR, st)
  else
    match guide_check stmnt_name with
    | some GuideNum.g_data =>
        let (dec_st, table') :=
          if is_symb_dec then
            new_symb_add_1 st.table symb_name (if use then st.data.length else 0) false true
          else (Ind.ALL_GOOD, st.table)
        if dec_st = Ind.INP_ERROR then (Ind.INP_ERROR, { st with table := table' })
        else
          let (gst, data') := proc_data_guide arg_line use st.data
          (gst, { st with table := table', data := data' })
    | some GuideNum.g_string =>
        let (dec_st, table') :=
          if is_symb_dec then
            new_symb_add_1 st.table symb_name (if use then st.data.length else 0) false true
          else (Ind.ALL_GOOD, st.table)
        if dec_st = Ind.INP_ERROR then (Ind.INP_ERROR, { st with table := table' })
        else
          let (gst, data') := proc_string_guide arg_line use st.data
          (gst, { st with table := table', data := data' })
    | some GuideNum.g_extern =>
        let (gst, table') := proc_extern_guide_1 arg_line st.table
        (gst, { st with table := table' })
    | some GuideNum.g_entry => (Ind.ALL_GOOD, st)
    | none => (Ind.INP_ERROR, st)

/-- proc_line_1 of as_1st_scan.c: skip comments (first raw character ';')
and empty lines, strip an optional label declaration (first token ending
in ':'), then dispatch the key word: a lone comma is an error, a '.'
prefix is a guidance statement, anything else is an instruction. -/
def proc_line_1 (use : Bool) (line : List Char) (st : St1) : Ind × St1 :=
  if line.headD ' ' = ';' then (Ind.ALL_GOOD, st)
  else
    let (token_1st, rest1) := get_token line
    if token_1st = [] then (Ind.ALL_GOOD, st)
    else if token_1st.getLastD ' ' = ':' then
      let symb_name := token_1st.dropLast
      let (token_2nd, rest2) := get_token rest1
      if token_2nd = [] then (Ind.ALL_GOOD, st)
      else proc_line_1_key token_2nd symb_name true rest2 use st
    else proc_line_1_key token_1st [] false rest1 use st
where
  /-- The dispatch on the key word at the end of proc_line_1. -/
  proc_line_1_key (key_word symb_name : List Char) (is_symb_dec : Bool)
      (line : List Char) (use : Bool) (st : St1) : Ind × St1 :=
    if key_word = [','] then (Ind.INP_ERROR, st)
    else if key_word.headD ' ' = '.' then
      proc_guidance_1 line key_word.tail symb_name is_symb_dec use st
    else proc_inst_1 line key_word symb_name is_symb_dec use st

/-- The line loop of run_1st_scan: a line longer than MAX_LINE_LEN is an
error and is not processed; after the first error, lines are processed
with NULL image pointers (use = false), so only the symbol table keeps
being updated. -/
def run1_lines : List (List Char) → St1 → Ind → Ind × St1
  | [], st, status => (status, st)
  | l :: ls, st, status =>
      if l.length > MAX_LINE_LEN then run1_lines ls st Ind.INP_ERROR
      else if status ≠ Ind.INP_ERROR then
        let (r, st') := proc_line_1 true l st
        run1_lines ls st' (if r = Ind.INP_ERROR then Ind.INP_ERROR else status)
      else
        let (_, st') := proc_line_1 false l st
        run1_lines ls st' status

/-- run_1st_scan of as_1st_scan.c: process every line, then shift every
data symbol's address by the code size plus the initial loading
address. -/
def run_1st_scan (lines : List (List Char)) : Ind × St1 :=
  let (status, st) := run1_lines lines ⟨[], [], intlz_symbt⟩ Ind.ALL_GOOD
  (status, { st with table := inc_data st.table (st.code.length + INITIAL_LOAD_ADSS) })

/- ~~~ as_2nd_scan ~~~ -/

/-- The state threaded through the second scan: the code image with the
cursor position of the current node (pos plays the role of the curr_word
pointer; pos ≥ code.length is the NULL end of the list), the instruction
counter, the external-reference list and the symbol table. -/
structure St2 where
  code : WordList
  pos : Nat
  IC : Address
  ext : ExtList
  table : SymbolTable
  deriving DecidableEq, Repr

/-- Set the entry flag of the first symbol with the given name in a bucket
(the in-place symb_ptr->is_entry = TRUE of proc_entry_guide). -/
def set_entry_first (bucket : List Symbol) (name : List Char) : List Symbol :=
  match bucket with
  | [] => []
  | s :: rest =>
      if s.name = name then { s with is_entry := true } :: rest
      else s :: set_entry_first rest name

/-- The symbol table after proc_entry_guide marks a symbol as entry. -/
def table_set_entry (table : SymbolTable) (name : List Char) : SymbolTable :=
  table.set (symb_hash name) (set_entry_first (table.getD (symb_hash name) []) name)

/-- get_rltv_opnd_word of as_2nd_scan.c: the symbol must exist and be
internal; the non-ARE field of the result is the distance from the start
of the current instruction to the symbol's address (as a signed 21-bit
value) and the ARE field is A.  The C result word starts uninitialised;
its unobservable garbage is modelled as 0. -/
def get_rltv_opnd_word (symb_name : List Char) (res : Word) (table : SymbolTable)
    (curr_inst_adss : Address) : Ind × Word :=
  match symb_lookup table symb_name with
  | none => (Ind.INP_ERROR, res)
  | some symb =>
      if symb.is_extern = true then (Ind.INP_ERROR, res)
      else
        let symb_adss := get_symb_adss symb.rep_word
        let w := set_word_field NON_ARE res
          (long_to_s21b ((symb_adss : Int) - (curr_inst_adss : Int))) 3
        let w := set_word_field ARE w (ARE_A_set : Int) 0
        (Ind.ALL_GOOD, w)

/-- str_to_opnd_2 of as_2nd_scan.c: classify the operand token; only
relative and direct operands get their info resolved here (immediate and
register operands were fully handled by the first scan). -/
def str_to_opnd_2 (opnd_str : List Char) (res : Operand) (table : SymbolTable)
    (curr_inst_adss : Address) : Ind × Operand :=
  if opnd_str.headD ' ' = '#' then
    (Ind.ALL_GOOD, { res with adss_method := .imediate_a })
  else if (reg_check opnd_str).isSome then
    (Ind.ALL_GOOD, { res with adss_method := .direct_reg_a })
  else if opnd_str.headD ' ' = '&' then
    let res := { res with adss_method := .relative_a }
    match get_rltv_opnd_word opnd_str.tail 0 table curr_inst_adss with
    | (Ind.ALL_GOOD, word) => (Ind.ALL_GOOD, { res with mem_word := word })
    | (st, _) => (st, res)
  else
    let res := { res with adss_method := .direct_a }
    match symb_lookup table opnd_str with
    | none => (Ind.INP_ERROR, res)
    | some new_symb => (Ind.ALL_GOOD, { res with symb_ptr := some new_symb })

/-- proc_opnd_2 of as_2nd_scan.c: resolve one operand and, when the code
image is wanted and the cursor is on a node, complete the current code
word; a direct reference to an external symbol is recorded in the
external list (when that list is wanted).  That recording sits inside the
code-image branch of the source, so with a NULL cursor nothing at all is
mutated. -/
def proc_opnd_2 (use_code use_ext : Bool) (opnd_str : List Char)
    (curr_inst_adss : Address) (st : St2) : Ind × St2 :=
  let (status, opnd) := str_to_opnd_2 opnd_str {} st.table curr_inst_adss
  if status = Ind.ALL_GOOD then
    if use_code && st.pos < st.code.length then
      match opnd.adss_method with
      | .imediate_a => (status, { st with pos := st.pos + 1, IC := st.IC + 1 })
      | .direct_reg_a => (status, st)
      | .relative_a =>
          (status, { st with code := st.code.set st.pos opnd.mem_word,
                             pos := st.pos + 1, IC := st.IC + 1 })
      | .direct_a =>
          match opnd.symb_ptr with
          | some symb =>
              let ext' := if use_ext && symb.is_extern then ext_list_add symb.name st.IC st.ext
                          else st.ext
              (status, { st with ext := ext', code := st.code.set st.pos symb.rep_word,
                                 pos := st.pos + 1, IC := st.IC + 1 })
          | none => (status, st)
    else (status, st)
  else (status, st)

/-- The while loop of proc_inst_2: operands separated by single commas
until the end of the line.  The fuel only bounds the recursion; every
iteration consumes at least one character, so the initial fuel
(line length + 1) is never exhausted. -/
def pi2_loop : Nat → List Char → Bool → Bool → Bool → Address → St2 → Ind × St2
  | 0, _, _, _, _, _, st => (Ind.INP_ERROR, st)
  | fuel + 1, line, is_1st_opnd, use_code, use_ext, curr_inst_adss, st =>
      let (token, rest) := get_token line
      if token = [] then
        (if is_1st_opnd then Ind.ALL_GOOD else Ind.INP_ERROR, st)
      else if token = [','] then (Ind.INP_ERROR, st)
      else
        let (ost, st') := proc_opnd_2 use_code use_ext token curr_inst_adss st
        if ost = Ind.INP_ERROR then (Ind.INP_ERROR, st')
        else
          let (token2, rest2) := get_token rest
          if token2 = [] then (Ind.ALL_GOOD, st')
          else if token2 ≠ [','] then (Ind.INP_ERROR, st')
          else pi2_loop fuel rest2 false use_code use_ext curr_inst_adss st'

/-- proc_inst_2 of as_2nd_scan.c: remember the instruction's start address
(the IC value on entry), skip the first instruction word (set by the
first scan), then process the operands. -/
def proc_inst_2 (use_code use_ext : Bool) (arg_line : List Char) (st : St2) : Ind × St2 :=
  let curr_inst_adss := st.IC
  let st1 :=
    if use_code && st.pos < st.code.length then { st with pos := st.pos + 1, IC := st.IC + 1 }
    else st
  pi2_loop (arg_line.length + 1) arg_line true use_code use_ext curr_inst_adss st1

/-- proc_entry_guide of as_2nd_scan.c: one symbol name that must exist in
the table and be internal; its entry flag is set to TRUE (even before the
end-of-line check, so a trailing-text error still leaves the flag set). -/
def proc_entry_guide (line : List Char) (table : SymbolTable) : Ind × SymbolTable :=
  let (token, rest) := get_token line
  if token = [] then (Ind.INP_ERROR, table)
  else
    match symb_lookup table token with
    | none => (Ind.INP_ERROR, table)
    | some symb_v =>
        if symb_v.is_extern = true then (Ind.INP_ERROR, table)
        else (line_end_check rest, table_set_entry table token)

/-- proc_line_2 of as_2nd_scan.c: skip comments and empty lines, skip a
label declaration, then: a ".entry" guidance statement is processed (a
label there is only warned about), any other guidance statement is
skipped, and an instruction statement is processed by proc_inst_2. -/
def proc_line_2 (use_code use_ext : Bool) (line : List Char) (st : St2) : Ind × St2 :=
  if line.headD ' ' = ';' then (Ind.ALL_GOOD, st)
  else
    let (token_1st, rest1) := get_token line
    if token_1st = [] then (Ind.ALL_GOOD, st)
    else if token_1st.getLastD ' ' = ':' then
      let (token_2nd, rest2) := get_token rest1
      if token_2nd = [] then (Ind.ALL_GOOD, st)
      else proc_line_2_key token_2nd rest2 use_code use_ext st
    else proc_line_2_key token_1st rest1 use_code use_ext st
where
  /-- The dispatch on the key word at the end of proc_line_2. -/
  proc_line_2_key (key_word line : List Char) (use_code use_ext : Bool) (st : St2) :
      Ind × St2 :=
    if key_word.headD ' ' = '.' then
      if key_word.tail = "entry".data then
        let (gst, table') := proc_entry_guide line st.table
        (gst, { st with table := table' })
      else (Ind.ALL_GOOD, st)
    else if (find_ass_inst key_word).isSome then
      proc_inst_2 use_code use_ext line st
    else (Ind.INP_ERROR, st)

/-- The line loop of run_2nd_scan: a line longer than MAX_LINE_LEN is
simply skipped (the first scan reported it); while the status is not
INP_ERROR lines are processed with the real code image and external
list, afterwards with NULL pointers for both (use flags false), so only
the symbol table keeps being updated. -/
def run2_lines : List (List Char) → St2 → Ind → Ind × St2
  | [], st, status => (status, st)
  | l :: ls, st, status =>
      if l.length > MAX_LINE_LEN then run2_lines ls st status
      else if status ≠ Ind.INP_ERROR then
        let (r, st') := proc_line_2 true true l st
        run2_lines ls st' (if r = Ind.INP_ERROR then Ind.INP_ERROR else status)
      else
        let (_, st') := proc_line_2 false false l st
        run2_lines ls st' status

/-- run_2nd_scan of as_2nd_scan.c: walk the source again with the cursor at
the head of the code image and the instruction counter at
INITIAL_LOAD_ADSS, starting from the status of the first scan and an
empty external list. -/
def run_2nd_scan (lines : List (List Char)) (code_img : WordList)
    (table : SymbolTable) (status : Ind) : Ind × St2 :=
  run2_lines lines ⟨code_img, 0, INITIAL_LOAD_ADSS, [], table⟩ status

/-- The outputs of one assembly run: the final status and the contents of
the object, externals and entries files (none when the file is not
produced). -/
structure AsmOut where
  status : Ind
  ob : Option (List Char)
  ext : Option (List Char)
  ent : Option (List Char)
  deriving DecidableEq, Repr

/-- Modelled from the spec: the per-file driver (assembler.c is not among
the sources).  It runs the first scan, then the second scan starting from
the first scan's status, and produces the object, externals and entries
files exactly when both scans finished without error (the externals and
entries files are additionally skipped by their formatters when they
would be empty). -/
def assemble (lines : List (List Char)) : AsmOut :=
  let (s1, st1) := run_1st_scan lines
  let (s2, st2) := run_2nd_scan lines st1.code st1.table s1
  if s2 = Ind.ALL_GOOD then
    ⟨s2, some (create_ob_file st2.code st1.data), form_ext_file st2.ext, form_ent_file st2.table⟩
  else ⟨s2, none, none, none⟩

/- ~~~ Definitions used to state the claims ~~~ -/

/-- Split a file content at newline characters: n newlines give n+1 chunks
(a trailing newline therefore yields a final empty chunk). -/
def split_lines : List Char → List (List Char)
  | [] => [[]]
  | c :: rest =>
      match split_lines rest with
      | [] => [[c]]
      | h :: t => if c = '\n' then [] :: h :: t else (c :: h) :: t

/-- The ARE field (bits 0-2) of a word. -/
def are_field (w : Word) : Nat := wbits w % 8

/-- The value of a 21-bit field read as a signed two's-complement number. -/
def s21_of_field (f : Nat) : Int :=
  if f < 2 ^ 20 then (f : Int) else (f : Int) - 2 ^ 21

/-- Modelled from the spec: the external reference contributed by one
operand, at its point of appearance - the (name, address) pair recorded
for a resolved direct reference to an external symbol when both the code
image and the external list are in use and the cursor is on a code word.
This mirrors the recording condition of proc_opnd_2. -/
def ext_ref_opnd (use_code use_ext : Bool) (opnd_str : List Char)
    (curr_inst_adss : Address) (st : St2) : ExtList :=
  let (status, opnd) := str_to_opnd_2 opnd_str {} st.table curr_inst_adss
  if status = Ind.ALL_GOOD then
    if use_code && st.pos < st.code.length then
      match opnd.adss_method, opnd.symb_ptr with
      | .direct_a, some symb =>
          if use_ext && symb.is_extern then [(symb.name, st.IC)] else []
      | _, _ => []
    else []
  else []

/-- Modelled from the spec: the external references of one operand line in
order of textual appearance (left to right), mirroring the loop of
proc_inst_2 but appending instead of prepending. -/
def ext_refs_loop : Nat → List Char → Bool → Bool → Bool → Address → St2 → ExtList
  | 0, _, _, _, _, _, _ => []
  | fuel + 1, line, _is_1st_opnd, use_code, use_ext, curr_inst_adss, st =>
      let (token, rest) := get_token line
      if token = [] then []
      else if token = [','] then []
      else
        let here := ext_ref_opnd use_code use_ext token curr_inst_adss st
        let (ost, st') := proc_opnd_2 use_code use_ext token curr_inst_adss st
        if ost = Ind.INP_ERROR then here
        else
          let (token2, rest2) := get_token rest
          if token2 = [] then here
          else if token2 ≠ [','] then here
          else here ++ ext_refs_loop fuel rest2 false use_code use_ext curr_inst_adss st'

/-- Modelled from the spec: the external references of one instruction
statement in appearance order (proc_inst_2's entry step, then the loop). -/
def ext_refs_inst (use_code use_ext : Bool) (arg_line : List Char) (st : St2) : ExtList :=
  let curr_inst_adss := st.IC
  let st1 :=
    if use_code && st.pos < st.code.length then { st with pos := st.pos + 1, IC := st.IC + 1 }
    else st
  ext_refs_loop (arg_line.length + 1) arg_line true use_code use_ext curr_inst_adss st1

/-- Modelled from the spec: the external references of one source line in
appearance order, mirroring proc_line_2. -/
def ext_refs_line (use_code use_ext : Bool) (line : List Char) (st : St2) : ExtList :=
  if line.headD ' ' = ';' then []
  else
    let (token_1st, rest1) := get_token line
    if token_1st = [] then []
    else if token_1st.getLastD ' ' = ':' then
      let (token_2nd, rest2) := get_token rest1
      if token_2nd = [] then []
      else ext_refs_line_key token_2nd rest2 use_code use_ext st
    else ext_refs_line_key token_1st rest1 use_code use_ext st
where
  /-- The key-word dispatch of ext_refs_line. -/
  ext_refs_line_key (key_word line : List Char) (use_code use_ext : Bool) (st : St2) : ExtList :=
    if key_word.headD ' ' = '.' then []
    else if (find_ass_inst key_word).isSome then ext_refs_inst use_code use_ext line st
    else []

/-- Modelled from the spec: all external references of the source in order
of textual appearance, mirroring the line loop of run_2nd_scan (the state
evolution is delegated to proc_line_2 itself). -/
def ext_refs_lines : List (List Char) → St2 → Ind → ExtList
  | [], _, _ => []
  | l :: ls, st, status =>
      if l.length > MAX_LINE_LEN then ext_refs_lines ls st status
      else if status ≠ Ind.INP_ERROR then
        let here := ext_refs_line true true l st
        let (r, st') := proc_line_2 true true l st
        here ++ ext_refs_lines ls st' (if r = Ind.INP_ERROR then Ind.INP_ERROR else status)
      else
        let (_, st') := proc_line_2 false false l st
        ext_refs_lines ls st' status

/-- Modelled from the spec: the external references of a whole second scan
in appearance order. -/
def ext_refs_run (lines : List (List Char)) (code_img : WordList)
    (table : SymbolTable) (status : Ind) : ExtList :=
  ext_refs_lines lines ⟨code_img, 0, INITIAL_LOAD_ADSS, [], table⟩ status

/-- Modelled from the spec: the data symbol declared by one source line
together with its zero-based offset in the data image - the data-image
size at the moment of the declaration.  A line declares a data symbol
when its first token is a label and its key word is .data or .string. -/
def line_data_offsets (line : List Char) (st : St1) : List (List Char × Nat) :=
  if line.headD ' ' = ';' then []
  else
    let (token_1st, rest1) := get_token line
    if token_1st = [] then []
    else if token_1st.getLastD ' ' = ':' then
      let symb_name := token_1st.dropLast
      let (token_2nd, _) := get_token rest1
      if token_2nd = [] then []
      else if token_2nd.headD ' ' = '.' then
        match guide_check token_2nd.tail with
        | some GuideNum.g_data => [(symb_name, st.data.length)]
        | some GuideNum.g_string => [(symb_name, st.data.length)]
        | _ => []
      else []
    else []

/-- Modelled from the spec: the declared data symbols of the whole source
with their zero-based data-image offsets, along the error-free path of
the first scan (the state evolution is delegated to proc_line_1). -/
def scan1_offsets : List (List Char) → St1 → List (List Char × Nat)
  | [], _ => []
  | l :: ls, st =>
      if l.length > MAX_LINE_LEN then scan1_offsets ls st
      else line_data_offsets l st ++ scan1_offsets ls (proc_line_1 true l st).2

/-- Modelled from the spec: the data symbols of a source and their
zero-based data-image offsets. -/
def run1_offsets (lines : List (List Char)) : List (List Char × Nat) :=
  scan1_offsets lines ⟨[], [], intlz_symbt⟩

/-- One install request, in source-declaration order (the arguments of one
symb_inst call). -/
structure InstallReq where
  name : List Char
  rep_word : Word
  is_extern : Bool
  is_entry : Bool
  is_data : Bool
  deriving DecidableEq, Repr

/-- The symbol that one install request creates. -/
def toSym (d : InstallReq) : Symbol :=
  ⟨d.name, d.rep_word, d.is_extern, d.is_entry, d.is_data⟩

/-- The symbol table built by installing a sequence of symbols in
declaration order. -/
def buildTable (ds : List InstallReq) : SymbolTable :=
  ds.foldl (fun t d => (symb_inst t d.name d.rep_word d.is_extern d.is_entry d.is_data).2)
    intlz_symbt

/-- The entries-file line of one install request (how form_ent_file prints
the corresponding symbol). -/
def ent_line_of (d : InstallReq) : List Char :=
  d.name ++ ' ' :: adss_to_str (wbits d.rep_word / 8)

/-- The data-symbol invariant of the first scan: every data symbol of the
table was recorded with an offset no larger than the current data-image
size, and its replacement word holds that offset (in the non-ARE field)
with ARE = R. -/
def dsym_inv (table : SymbolTable) (dlen : Nat) (offs : List (List Char × Nat)) : Prop :=
  ∀ b ∈ table, ∀ s ∈ b, s.is_data = true →
    ∃ off, (s.name, off) ∈ offs ∧ off ≤ dlen ∧
      wbits s.rep_word = off % 2 ^ 21 * 8 + 2

/- ~~~~~~~~~~~~~~~~~~~~~~~~~ Theorems ~~~~~~~~~~~~~~~~~~~~~~~~~ -/

/-- C1 counterexample: on the one-line input `stop` the single code line of
the object file is `0000100 3c0004`, not `0000100 3c0000` as claimed - the
ARE field set by creat_inst_word is A = 4 in bits 0-2, which is the final
hex digit 4. -/
theorem c1_stop_object_counterexample :
    (assemble ["stop".data]).ob = some ("1 0\n0000100 3c0004\n".data) ∧
    (assemble ["stop".data]).ob ≠ some ("1 0\n0000100 3c0000\n".data) ∧
    (assemble ["stop".data]).ob ≠ some ("1 0\n0000100 3c0000".data) := by
  refine ⟨rfl, ?_, ?_⟩ <;> decide

/-- C1 (amended): for the one-line input `stop`, the assembler succeeds and
the object file consists of the header line `1 0` followed by exactly one
code line `0000100 3c0004` (opcode 15 in bits 18-23, ARE=A, i.e. the value
4 in bits 0-2), and no .ent or .ext file is produced. -/
theorem c1_stop_minimal_object :
    assemble ["stop".data] =
      ⟨Ind.ALL_GOOD, some ("1 0\n0000100 3c0004\n".data), none, none⟩ := by
  rfl

/-- C2 (code bug): a `.data` parameter of -8388608 is emitted as the data
word 000000, not 800000: long_to_s24b takes the C remainder modulo 2^23,
and -8388608 tmod 8388608 = 0, so the sign information of the lower limit
is lost, contradicting the macro's own documentation ("translate the
argument into a signed 24 bit integer ... the last bit will be kept as the
sign bit").  The upper limit 8388607 does emit 7fffff. -/
theorem c2_data_limits_code_bug :
    long_to_s24b (-8388608) = 0 ∧
    (assemble [".data -8388608".data, "stop".data]).ob =
      some ("1 1\n0000100 3c0004\n0000101 000000".data) ∧
    (assemble [".data 8388607".data, "stop".data]).ob =
      some ("1 1\n0000100 3c0004\n0000101 7fffff".data) := by
  exact ⟨rfl, rfl, rfl⟩

/-- C3 counterexample: a program with two direct references to external
symbols, A at address 101 then B at address 103 in textual order, whose
.ext file lists B before A - the reverse of appearance order. -/
theorem c3_ext_order_counterexample :
    (assemble [".extern A".data, ".extern B".data, "jmp A".data, "jmp B".data]).ext =
      some ("B 0000103\nA 0000101".data) ∧
    (assemble [".extern A".data, ".extern B".data, "jmp A".data, "jmp B".data]).ext ≠
      some ("A 0000101\nB 0000103".data) := by
  refine ⟨rfl, ?_⟩; decide

/-- C4 counterexample: a program declaring the entry symbols b (address
100) and then a (address 101); the .ent file lists a before b because
form_ent_file walks the hash buckets in index order (hash 'a' = 39 <
hash 'b' = 40), not in source-declaration order. -/
theorem c4_ent_order_counterexample :
    (assemble ["b: stop".data, "a: stop".data, ".entry b".data, ".entry a".data]).ent =
      some ("a 0000101\nb 0000100".data) ∧
    (assemble ["b: stop".data, "a: stop".data, ".entry b".data, ".entry a".data]).ent ≠
      some ("b 0000100\na 0000101".data) := by
  refine ⟨rfl, ?_⟩; decide

/-- C7 counterexample: a successfully assembled input with non-empty code
and data images whose object file has no blank line at all: the newline
printed between the images merely terminates the last code line, and the
data lines follow immediately. -/
theorem c7_blank_line_counterexample :
    split_lines ((assemble ["stop".data, ".data 5".data]).ob.getD []) =
      ["1 1".data, "0000100 3c0004".data, "0000101 000005".data] ∧
    [] ∉ split_lines ((assemble ["stop".data, ".data 5".data]).ob.getD []) := by
  refine ⟨rfl, ?_⟩; decide

/- ~~~ Helper lemmas on the word model ~~~ -/

theorem wbits_lt (w : Word) : wbits w < 2 ^ 24 := by
  have h1 : (0 : Int) ≤ w % (2 ^ WORD_BIT_LEN : Int) := Int.emod_nonneg _ (by norm_num [WORD_BIT_LEN])
  have h2 : w % (2 ^ WORD_BIT_LEN : Int) < 2 ^ WORD_BIT_LEN := Int.emod_lt_of_pos _ (by norm_num [WORD_BIT_LEN])
  unfold wbits
  simp only [WORD_BIT_LEN] at h1 h2 ⊢
  omega

theorem wbits_ofNat (n : Nat) : wbits (n : Int) = n % 2 ^ 24 := by
  unfold wbits WORD_BIT_LEN
  have h : (n : Int) % ((2 : Int) ^ 24) = ((n % 2 ^ 24 : Nat) : Int) := by
    push_cast
    rfl
  rw [h]
  omega

theorem wbits_of_small {n : Nat} (h : n < 2 ^ 24) : wbits (n : Int) = n := by
  rw [wbits_ofNat, Nat.mod_eq_of_lt h]

theorem land_shifted_mask (x m k : Nat) : x &&& (m <<< k) = ((x >>> k) &&& m) <<< k := by
  apply Nat.eq_of_testBit_eq
  intro i
  simp only [Nat.testBit_and, Nat.testBit_shiftLeft, Nat.testBit_shiftRight]
  by_cases h : k ≤ i
  · have hik : k + (i - k) = i := by omega
    simp only [ge_iff_le, h, decide_True, Bool.true_and, hik]
  · simp [h]

theorem land_nonare (x : Nat) : x &&& NON_ARE = x / 8 % 2 ^ 21 * 8 := by
  have hmask : NON_ARE = (2 ^ 21 - 1) <<< 3 := by decide
  rw [hmask, land_shifted_mask, Nat.and_pow_two_sub_one_eq_mod,
    Nat.shiftLeft_eq, Nat.shiftRight_eq_div_pow]

theorem land_are (x : Nat) : x &&& ARE = x % 8 := by
  have hmask : ARE = 2 ^ 3 - 1 := by decide
  rw [hmask, Nat.and_pow_two_sub_one_eq_mod]

theorem lor_low_high (a m : Nat) (ha : a < 8) : a ||| m * 8 = m * 8 + a := by
  have ha3 : a < 2 ^ 3 := by omega
  have h := Nat.mul_add_lt_is_or ha3 m
  have h8 : m * 8 = 2 ^ 3 * m := by ring
  rw [h8, Nat.lor_comm, ← h]

theorem int_emod_two_pow_toNat (v : Int) (k : Nat) :
    0 ≤ v % ((2 : Int) ^ k) ∧ v % ((2 : Int) ^ k) < 2 ^ k := by
  constructor
  · exact Int.emod_nonneg _ (by positivity)
  · exact Int.emod_lt_of_pos _ (by positivity)

theorem wbits_mul8 (v : Int) : wbits (v * 8) = (v % ((2 : Int) ^ 21)).toNat * 8 := by
  unfold wbits WORD_BIT_LEN
  have hmul : (v * 8) % ((2 : Int) ^ 24) = 8 * (v % ((2 : Int) ^ 21)) := by
    have h24 : (2 : Int) ^ 24 = 8 * 2 ^ 21 := by norm_num
    rw [h24, Int.mul_comm v 8, Int.mul_emod_mul_of_pos _ _ (by norm_num : (0:Int) < 8)]
  rw [hmul]
  have h1 : 0 ≤ v % ((2:Int) ^ 21) := Int.emod_nonneg _ (by positivity)
  omega

/-- set_word_field with the NON_ARE mask: the low three bits of the word are
kept and the value (reduced to 21 bits) fills bits 3-23. -/
theorem set_word_field_nonare (w : Word) (v : Int) :
    set_word_field NON_ARE w v 3 = (((v % ((2 : Int) ^ 21)).toNat * 8 + wbits w % 8 : Nat) : Int) := by
  unfold set_word_field
  congr 1
  have hxor : WORD_MASK ^^^ NON_ARE = ARE := by decide
  have h8 : ((2 : Int) ^ (3 : Nat)) = 8 := by norm_num
  rw [hxor, land_are, h8, wbits_mul8, land_nonare]
  have hm : (v % ((2 : Int) ^ 21)).toNat < 2 ^ 21 := by
    have h := int_emod_two_pow_toNat v 21
    omega
  rw [Nat.mul_div_cancel _ (by norm_num : 0 < 8), Nat.mod_eq_of_lt hm]
  exact lor_low_high _ _ (Nat.mod_lt _ (by norm_num))

/-- set_word_field with the ARE mask: bits 3-23 of the word are kept and the
value (below 8) fills bits 0-2. -/
theorem set_word_field_are (w : Word) (v : Nat) (hv : v < 8) :
    set_word_field ARE w (v : Int) 0 = ((wbits w / 8 * 8 + v : Nat) : Int) := by
  unfold set_word_field
  congr 1
  have hxor : WORD_MASK ^^^ ARE = NON_ARE := by decide
  have h1 : ((v : Int) * 2 ^ (0 : Nat)) = (v : Int) := by norm_num
  rw [hxor, land_nonare, land_are, h1, wbits_of_small (by omega : v < 2 ^ 24)]
  have hw : wbits w / 8 < 2 ^ 21 := by
    have h := wbits_lt w
    omega
  rw [Nat.mod_eq_of_lt hw, Nat.mod_eq_of_lt hv, Nat.lor_comm]
  exact lor_low_high v _ hv

/-- Bounds for the truncated remainder: for a positive modulus n,
x tmod n lies strictly between -n and n. -/
theorem tmod_bounds (x : Int) {n : Nat} (hn : 0 < n) :
    -(n : Int) < x.tmod n ∧ x.tmod n < n := by
  cases x with
  | ofNat m =>
      have h : Int.tmod (Int.ofNat m) (n : Int) = ((m % n : Nat) : Int) := rfl
      rw [h]
      have := Nat.mod_lt m hn
      omega
  | negSucc m =>
      have h : Int.tmod (Int.negSucc m) (n : Int) = -(((m + 1) % n : Nat) : Int) := rfl
      rw [h]
      have := Nat.mod_lt (m + 1) hn
      omega

/-- C8: symb_inst returns the duplicate error exactly when a symbol with the
given name is already in the table - no flag of either symbol is consulted -
and in that case the table is left unchanged. -/
theorem c8_symb_inst_duplicate (table : SymbolTable) (name : List Char) (rep_word : Word)
    ( is_extern is_entry is_data : Bool) :
    ((symb_inst table name rep_word is_extern is_entry is_data).1 = Ind.DUP_ERR ↔
      (symb_lookup table name).isSome = true) ∧
    ((symb_lookup table name).isSome = true →
      (symb_inst table name rep_word is_extern is_entry is_data).2 = table) := by
  unfold symb_inst
  by_cases h : (symb_lookup table name).isSome = true
  · simp [h]
  · simp [h]

/-- C8 witness: installing "a" twice (the second time with different flags)
hits the duplicate error and leaves the table unchanged. -/
theorem c8_symb_inst_duplicate_witness :
    (symb_inst (symb_inst intlz_symbt "a".data 0 false false false).2
      "a".data 7 true true true).1 = Ind.DUP_ERR ∧
    (symb_inst (symb_inst intlz_symbt "a".data 0 false false false).2
      "a".data 7 true true true).2 =
      (symb_inst intlz_symbt "a".data 0 false false false).2 := by
  have h := c8_symb_inst_duplicate (symb_inst intlz_symbt "a".data 0 false false false).2
    "a".data 7 true true true
  exact ⟨h.1.mpr (by decide), h.2 (by decide)⟩

theorem reg_check_amp (l : List Char) : reg_check ('&' :: l) = none := by
  cases l with
  | nil => rfl
  | cons a t =>
      cases t with
      | nil =>
          unfold reg_check
          simp
      | cons b t2 => rfl

theorem long_to_s21b_bounds (x : Int) :
    -(1048576 : Int) < long_to_s21b x ∧ long_to_s21b x < 1048576 := by
  have h := tmod_bounds x (n := 1048576) (by norm_num)
  unfold long_to_s21b
  push_cast at h
  convert h using 2

/-- C5: in pass 2, a relative operand `&S` whose symbol S is found in the
table and is internal is accepted, and the word written into the operand's
code-image word (at the cursor) carries to_s21(address(S) -
instruction_start_address) in its non-ARE field, read as a signed 21-bit
number, and A in its ARE field; curr_inst_adss is the IC value that
proc_inst_2 captured at the start of the instruction. -/
theorem c5_relative_operand_word (ue : Bool) (st : St2) (name : List Char)
    (start : Address) (symb : Symbol)
    (hfind : symb_lookup st.table name = some symb)
    (hext : symb.is_extern = false)
    (hpos : st.pos < st.code.length) :
    (proc_opnd_2 true ue ('&' :: name) start st).1 = Ind.ALL_GOOD ∧
    (proc_opnd_2 true ue ('&' :: name) start st).2.code =
      st.code.set st.pos (get_rltv_opnd_word name 0 st.table start).2 ∧
    s21_of_field (wbits (get_rltv_opnd_word name 0 st.table start).2 / 8) =
      long_to_s21b ((get_symb_adss symb.rep_word : Int) - (start : Int)) ∧
    are_field (get_rltv_opnd_word name 0 st.table start).2 = ARE_A_set := by
  have h1 : (get_rltv_opnd_word name 0 st.table start).1 = Ind.ALL_GOOD := by
    simp [get_rltv_opnd_word, hfind, hext]
  have h2 : (get_rltv_opnd_word name 0 st.table start).2 =
      set_word_field ARE
        (set_word_field NON_ARE (0 : Word)
          (long_to_s21b ((get_symb_adss symb.rep_word : Int) - (start : Int))) 3)
        (ARE_A_set : Int) 0 := by
    simp [get_rltv_opnd_word, hfind, hext]
  set d : Int := long_to_s21b ((get_symb_adss symb.rep_word : Int) - (start : Int)) with hd
  have hdb := long_to_s21b_bounds ((get_symb_adss symb.rep_word : Int) - (start : Int))
  rw [← hd] at hdb
  have hm := int_emod_two_pow_toNat d 21
  set m : Nat := (d % ((2 : Int) ^ 21)).toNat with hmdef
  clear_value d m
  have hmlt : m < 2 ^ 21 := by omega
  have hcast : (ARE_A_set : Int) = ((4 : Nat) : Int) := by norm_num [ARE_A_set]
  have hw1 : set_word_field NON_ARE (0 : Word) d 3 = ((m * 8 : Nat) : Int) := by
    have hz : wbits (0 : Word) = 0 := rfl
    rw [set_word_field_nonare, hz, hmdef]
    congr 1
  have hw2 : (get_rltv_opnd_word name 0 st.table start).2 = ((m * 8 + 4 : Nat) : Int) := by
    rw [h2, hcast, hw1, set_word_field_are _ 4 (by norm_num),
      wbits_of_small (by omega : m * 8 < 2 ^ 24), Nat.mul_div_cancel _ (by norm_num : 0 < 8)]
  have hwbits : wbits (get_rltv_opnd_word name 0 st.table start).2 = m * 8 + 4 := by
    rw [hw2, wbits_of_small (by omega : m * 8 + 4 < 2 ^ 24)]
  rcases hget : get_rltv_opnd_word name 0 st.table start with ⟨g1, gw⟩
  rw [hget] at h1 hw2 hwbits
  simp only at h1
  subst h1
  refine ⟨?_, ?_, ?_, ?_⟩
  · simp [proc_opnd_2, str_to_opnd_2, reg_check_amp, hget, hpos]
  · simp [proc_opnd_2, str_to_opnd_2, reg_check_amp, hget, hpos]
  · simp only
    rw [hwbits]
    have hdiv : (m * 8 + 4) / 8 = m := by omega
    rw [hdiv, s21_of_field]
    have h20 : (2 : Nat) ^ 20 = 1048576 := by norm_num
    rw [h20]
    have hme : (m : Int) = d % ((2 : Int) ^ 21) := by omega
    have h21n : ((2 : Int) ^ 21) = 2097152 := by norm_num
    rw [h21n] at hme hm
    split <;> omega
  · simp only
    rw [are_field, hwbits]
    unfold ARE_A_set
    omega

/-- C5 witness: a one-instruction table holding HERE at address 100; the
relative operand &HERE at an instruction starting at address 100 is
accepted and its word has field value to_s21(0) = 0 and ARE = A. -/
theorem c5_relative_operand_word_witness :
    (proc_opnd_2 true true ('&' :: "HERE".data) 100
      ⟨[(0 : Word), (0 : Word)], 1, 101,
        [], (symb_inst intlz_symbt "HERE".data 802 false false false).2⟩).1 = Ind.ALL_GOOD ∧
    s21_of_field (wbits (get_rltv_opnd_word "HERE".data 0
      (symb_inst intlz_symbt "HERE".data 802 false false false).2 100).2 / 8) =
      long_to_s21b ((get_symb_adss (802 : Word) : Int) - (100 : Int)) := by
  have h := c5_relative_operand_word true
    ⟨[(0 : Word), (0 : Word)], 1, 101,
      [], (symb_inst intlz_symbt "HERE".data 802 false false false).2⟩
    "HERE".data 100 ⟨"HERE".data, 802, false, false, false⟩ (by decide) (by decide) (by decide)
  exact ⟨h.1, h.2.2.1⟩

/- ~~~ The NULL-pointer second scan touches neither code image nor external list ~~~ -/

theorem proc_opnd_2_null (tok : List Char) (adss : Address) (st : St2) :
    (proc_opnd_2 false false tok adss st).2 = st := by
  unfold proc_opnd_2
  rcases hs : str_to_opnd_2 tok {} st.table adss with ⟨status, opnd⟩
  simp [hs, apply_ite]

theorem pi2_loop_null : ∀ (fuel : Nat) (line : List Char) (b : Bool) (adss : Address) (st : St2),
    (pi2_loop fuel line b false false adss st).2 = st := by
  intro fuel
  induction fuel with
  | zero => intro line b adss st; rfl
  | succ n ih =>
      intro line b adss st
      unfold pi2_loop
      rcases hgt : get_token line with ⟨tok, rest⟩
      rcases hpo : proc_opnd_2 false false tok adss st with ⟨ost, st'⟩
      have hst' : st' = st := by
        have h := proc_opnd_2_null tok adss st
        rw [hpo] at h
        exact h
      subst hst'
      rcases hgt2 : get_token rest with ⟨tok2, rest2⟩
      by_cases h1 : tok = []
      · simp [h1]
      · by_cases h2 : tok = [',']
        · simp [h1, h2]
        · by_cases h3 : ost = Ind.INP_ERROR
          · simp [h1, h2, h3, hpo]
          · by_cases h4 : tok2 = []
            · simp [h1, h2, h3, h4, hpo, hgt2]
            · by_cases h5 : tok2 = [',']
              · simp [h1, h2, h3, h4, h5, hpo, hgt2, ih]
              · simp [h1, h2, h3, h4, h5, hpo, hgt2]

theorem proc_inst_2_null (line : List Char) (st : St2) :
    (proc_inst_2 false false line st).2 = st := by
  unfold proc_inst_2
  simp [pi2_loop_null]

theorem proc_line_2_null (l : List Char) (st : St2) :
    (proc_line_2 false false l st).2.code = st.code ∧
    (proc_line_2 false false l st).2.ext = st.ext := by
  constructor <;>
  · unfold proc_line_2 proc_line_2.proc_line_2_key
    repeat' split
    all_goals first
      | rfl
      | simp [proc_inst_2_null]

theorem run2_lines_err : ∀ (lines : List (List Char)) (st : St2),
    (run2_lines lines st Ind.INP_ERROR).1 = Ind.INP_ERROR ∧
    (run2_lines lines st Ind.INP_ERROR).2.code = st.code ∧
    (run2_lines lines st Ind.INP_ERROR).2.ext = st.ext := by
  intro lines
  induction lines with
  | nil => intro st; exact ⟨rfl, rfl, rfl⟩
  | cons l ls ih =>
      intro st
      unfold run2_lines
      by_cases hlen : l.length > MAX_LINE_LEN
      · simpa [hlen] using ih st
      · rcases hpl : proc_line_2 false false l st with ⟨r, st'⟩
        have hfr := proc_line_2_null l st
        rw [hpl] at hfr
        have hrec := ih st'
        simp only [hlen, if_false, hpl]
        simp only [if_neg (by simp : ¬(Ind.INP_ERROR ≠ Ind.INP_ERROR))]
        exact ⟨hrec.1, hrec.2.1.trans hfr.1, hrec.2.2.trans hfr.2⟩

/-- C9: when the first scan reported an input error, the second scan still
walks every line (reporting pass-2-only diagnostics) but mutates neither
the code image nor the external-reference list: the status stays
INP_ERROR, the code image is returned exactly as given, and the external
list stays empty. -/
theorem c9_error_pass2_frame (lines : List (List Char)) (code_img : WordList)
    (table : SymbolTable) :
    (run_2nd_scan lines code_img table Ind.INP_ERROR).1 = Ind.INP_ERROR ∧
    (run_2nd_scan lines code_img table Ind.INP_ERROR).2.code = code_img ∧
    (run_2nd_scan lines code_img table Ind.INP_ERROR).2.ext = [] := by
  unfold run_2nd_scan
  exact run2_lines_err lines ⟨code_img, 0, INITIAL_LOAD_ADSS, [], table⟩

/- ~~~ Tokenizer and entry-marking lemmas ~~~ -/

theorem get_token_plain {l : List Char} (hne : l ≠ [])
    (hp : ∀ c ∈ l, Ctype.isspace c = false ∧ c ≠ ',') :
    get_token l = (l, []) := by
  cases l with
  | nil => exact absurd rfl hne
  | cons c rest =>
      have hc := hp c (by simp)
      have ht : (c :: rest).takeWhile (fun x => !(x = ',' || Ctype.isspace x)) = c :: rest := by
        rw [List.takeWhile_eq_self_iff]
        intro x hx
        have hx2 := hp x hx
        simp [hx2.1, hx2.2]
      unfold get_token
      simp only [hc.1, Bool.false_eq_true, if_false, hc.2, ht]
      simp [List.drop_length]

theorem set_entry_find (bucket : List Symbol) (name : List Char) (s : Symbol)
    (h : bucket.find? (fun x => x.name = name) = some s) :
    (set_entry_first bucket name).find? (fun x => x.name = name) =
      some { s with is_entry := true } := by
  induction bucket with
  | nil => simp at h
  | cons b rest ih =>
      by_cases hb : b.name = name
      · rw [List.find?_cons_of_pos _ (by simp [hb])] at h
        have hs : b = s := by simpa using h
        subst hs
        unfold set_entry_first
        rw [if_pos hb]
        exact List.find?_cons_of_pos _ (by simp [hb])
      · rw [List.find?_cons_of_neg _ (by simp [hb])] at h
        unfold set_entry_first
        rw [if_neg hb]
        rw [List.find?_cons_of_neg _ (by simp [hb])]
        exact ih h

theorem lookup_table_set_entry (table : SymbolTable) (name : List Char) (s : Symbol)
    (hfind : symb_lookup table name = some s) :
    symb_lookup (table_set_entry table name) name = some { s with is_entry := true } := by
  unfold symb_lookup at hfind ⊢
  unfold table_set_entry
  have hlt : symb_hash name < table.length := by
    by_contra hge
    have hnone : table.getD (symb_hash name) [] = [] := by
      unfold List.getD
      rw [List.get?_eq_getElem?, List.getElem?_eq_none (by omega)]
      rfl
    rw [hnone] at hfind
    simp at hfind
  have hbt : (table.set (symb_hash name)
      (set_entry_first (table.getD (symb_hash name) []) name)).getD (symb_hash name) [] =
      set_entry_first (table.getD (symb_hash name) []) name := by
    unfold List.getD
    rw [List.get?_eq_getElem?, List.getElem?_set_self hlt]
    rfl
  rw [hbt]
  exact set_entry_find _ _ _ hfind

theorem proc_entry_guide_space (name : List Char) (table : SymbolTable) (s : Symbol)
    (hne : name ≠ [])
    (hplain : ∀ c ∈ name, Ctype.isspace c = false ∧ c ≠ ',')
    (hfind : symb_lookup table name = some s)
    (hext : s.is_extern = false) :
    proc_entry_guide (' ' :: name) table = (Ind.ALL_GOOD, table_set_entry table name) := by
  unfold proc_entry_guide
  have hgt : get_token (' ' :: name) = (name, []) := by
    have hsp : get_token (' ' :: name) = get_token name := rfl
    rw [hsp, get_token_plain hne hplain]
  rw [hgt]
  simp [hne, hfind, hext, line_end_check, get_token]

/-- C10: even in the error-suppressed second scan (pass 1 reported an
error, so the code image and external list are passed as NULL), a
syntactically valid `.entry S` line whose symbol S exists in the table
and is internal still sets S's entry flag to true: the symbol table,
unlike the code image and external list, is mutated in the error state. -/
theorem c10_entry_set_in_error_state (code_img : WordList) (table : SymbolTable)
    (name : List Char) (s : Symbol)
    (hne : name ≠ [])
    (hplain : ∀ c ∈ name, Ctype.isspace c = false ∧ c ≠ ',')
    (hlen : name.length ≤ 73)
    (hfind : symb_lookup table name = some s)
    (hext : s.is_extern = false) :
    symb_lookup
      (run_2nd_scan [".entry ".data ++ name] code_img table Ind.INP_ERROR).2.table name =
      some { s with is_entry := true } ∧
    (run_2nd_scan [".entry ".data ++ name] code_img table Ind.INP_ERROR).1 = Ind.INP_ERROR := by
  have hline : (".entry ".data ++ name).length ≤ MAX_LINE_LEN := by
    simp [MAX_LINE_LEN]
    omega
  have hgt : get_token ('.' :: 'e' :: 'n' :: 't' :: 'r' :: 'y' :: ' ' :: name) =
      (['.', 'e', 'n', 't', 'r', 'y'], ' ' :: name) := rfl
  have f1' : ('.' : Char) ≠ ';' := by decide
  have g1 : (['.', 'e', 'n', 't', 'r', 'y'] : List Char).getLast?.getD ' ' ≠ ':' := by decide
  have g2 : (['.', 'e', 'n', 't', 'r', 'y'] : List Char) ≠ [] := by decide
  have g3 : (['.', 'e', 'n', 't', 'r', 'y'] : List Char).head?.getD ' ' = '.' := by decide
  have hpl : proc_line_2 false false (".entry ".data ++ name)
      ⟨code_img, 0, INITIAL_LOAD_ADSS, [], table⟩ =
      (Ind.ALL_GOOD, ⟨code_img, 0, INITIAL_LOAD_ADSS, [],
        table_set_entry table name⟩) := by
    unfold proc_line_2 proc_line_2.proc_line_2_key
    simp [hgt, f1', g1, g2, g3]
    rw [proc_entry_guide_space name table s hne hplain hfind hext]
    exact ⟨rfl, rfl⟩
  unfold run_2nd_scan run2_lines
  rw [if_neg (by omega : ¬(".entry ".data ++ name).length > MAX_LINE_LEN)]
  simp only [ne_eq, not_true_eq_false, if_false, hpl]
  unfold run2_lines
  exact ⟨lookup_table_set_entry table name s hfind, rfl⟩

/-- C10 witness: with symbol L (address 101, internal) in the table and the
error status from pass 1, the line `.entry L` still sets L's entry flag. -/
theorem c10_entry_set_in_error_state_witness :
    symb_lookup (run_2nd_scan [".entry ".data ++ "L".data] []
        (symb_inst intlz_symbt "L".data 810 false false false).2
        Ind.INP_ERROR).2.table "L".data =
      some ⟨"L".data, 810, false, true, false⟩ := by
  have h := c10_entry_set_in_error_state []
    (symb_inst intlz_symbt "L".data 810 false false false).2
    "L".data ⟨"L".data, 810, false, false, false⟩
    (by decide) (by decide) (by decide) (by decide) (by decide)
  exact h.1

/- ~~~ Line structure of the emitted files ~~~ -/

theorem split_lines_ne_nil (l : List Char) : split_lines l ≠ [] := by
  induction l with
  | nil => simp [split_lines]
  | cons c rest ih =>
      unfold split_lines
      cases h : split_lines rest with
      | nil => simp
      | cons x xs =>
          simp only [h]
          split <;> simp

theorem split_lines_append (p rest : List Char) (hp : ∀ c ∈ p, c ≠ '\n') :
    split_lines (p ++ '\n' :: rest) = p :: split_lines rest := by
  induction p with
  | nil =>
      simp only [List.nil_append]
      conv_lhs => unfold split_lines
      cases h : split_lines rest with
      | nil => exact absurd h (split_lines_ne_nil rest)
      | cons x xs => simp [h]
  | cons c p' ih =>
      have hc : c ≠ '\n' := hp c (by simp)
      have hrest : ∀ x ∈ p', x ≠ '\n' := fun x hx => hp x (by simp [hx])
      simp only [List.cons_append]
      conv_lhs => unfold split_lines
      rw [ih hrest]
      simp [hc]

theorem split_lines_no_nl (p : List Char) (hp : ∀ c ∈ p, c ≠ '\n') : split_lines p = [p] := by
  induction p with
  | nil => rfl
  | cons c p' ih =>
      have hc : c ≠ '\n' := hp c (by simp)
      have hrest : ∀ x ∈ p', x ≠ '\n' := fun x hx => hp x (by simp [hx])
      conv_lhs => unfold split_lines
      rw [ih hrest]
      simp [hc]

theorem join_lines_cons_cons (x y : List Char) (t : List (List Char)) :
    join_lines (x :: y :: t) = x ++ '\n' :: join_lines (y :: t) := by
  simp [join_lines]

theorem split_join (ls : List (List Char)) (h : ∀ l ∈ ls, ∀ c ∈ l, c ≠ '\n')
    (hne : ls ≠ []) : split_lines (join_lines ls) = ls := by
  induction ls with
  | nil => exact absurd rfl hne
  | cons x xs ih =>
      cases xs with
      | nil => simpa [join_lines] using split_lines_no_nl x (h x (by simp))
      | cons y t =>
          rw [join_lines_cons_cons, split_lines_append x _ (h x (by simp)),
            ih (fun l hl => h l (by simp [hl])) (by simp)]

theorem split_join_append (ls : List (List Char)) (rest : List Char)
    (h : ∀ l ∈ ls, ∀ c ∈ l, c ≠ '\n') (hne : ls ≠ []) :
    split_lines (join_lines ls ++ '\n' :: rest) = ls ++ split_lines rest := by
  induction ls with
  | nil => exact absurd rfl hne
  | cons x xs ih =>
      cases xs with
      | nil =>
          simp only [join_lines, List.flatMap_nil, List.append_nil]
          rw [split_lines_append x rest (h x (by simp))]
          rfl
      | cons y t =>
          rw [join_lines_cons_cons]
          have hassoc : (x ++ '\n' :: join_lines (y :: t)) ++ '\n' :: rest =
              x ++ '\n' :: (join_lines (y :: t) ++ '\n' :: rest) := by
            simp
          rw [hassoc, split_lines_append x _ (h x (by simp)),
            ih (fun l hl => h l (by simp [hl])) (by simp)]
          rfl

theorem digit_char_ofNat_ne_nl (x : Nat) : Char.ofNat ('0'.toNat + x % 10) ≠ '\n' := by
  have hx : x % 10 < 10 := Nat.mod_lt _ (by norm_num)
  set d := x % 10 with hd
  clear_value d
  interval_cases d <;> decide

theorem adss_to_str_no_nl (a : Address) : ∀ c ∈ adss_to_str a, c ≠ '\n' := by
  intro c hc
  unfold adss_to_str at hc
  rcases List.mem_map.mp hc with ⟨i, _, hci⟩
  rw [← hci]
  exact digit_char_ofNat_ne_nl _

theorem hexDigit_ne_nl (d : Nat) (hd : d < 16) : hexDigit d ≠ '\n' := by
  interval_cases d <;> decide

theorem word_to_str_no_nl (w : Word) : ∀ c ∈ word_to_str w, c ≠ '\n' := by
  intro c hc
  unfold word_to_str at hc
  rcases List.mem_map.mp hc with ⟨sh, _, hcs⟩
  rw [← hcs]
  refine hexDigit_ne_nl _ ?_
  have h15 : (0xf : Nat) = 2 ^ 4 - 1 := by norm_num
  rw [h15, Nat.and_pow_two_sub_one_eq_mod]
  exact Nat.mod_lt _ (by norm_num)

theorem digitChar_ne_nl (m : Nat) : Nat.digitChar m ≠ '\n' := by
  by_cases h : m < 16
  · interval_cases m <;> decide
  · have hstar : Nat.digitChar m = '*' := by
      unfold Nat.digitChar
      repeat rw [if_neg (by omega)]
    rw [hstar]
    decide

theorem toDigitsCore_ne_nl : ∀ (fuel n : Nat) (acc : List Char),
    (∀ c ∈ acc, c ≠ '\n') → ∀ c ∈ Nat.toDigitsCore 10 fuel n acc, c ≠ '\n' := by
  intro fuel
  induction fuel with
  | zero =>
      intro n acc hacc c hc
      exact hacc c hc
  | succ f ih =>
      intro n acc hacc c hc
      unfold Nat.toDigitsCore at hc
      by_cases h : n / 10 = 0
      · rw [if_pos h] at hc
        rcases List.mem_cons.mp hc with h1 | h2
        · rw [h1]; exact digitChar_ne_nl _
        · exact hacc c h2
      · rw [if_neg h] at hc
        refine ih _ _ ?_ c hc
        intro x hx
        rcases List.mem_cons.mp hx with h1 | h2
        · rw [h1]; exact digitChar_ne_nl _
        · exact hacc x h2

theorem natRepr_no_nl (n : Nat) : ∀ c ∈ (toString n).data, c ≠ '\n' := by
  have hdata : (toString n).data = Nat.toDigitsCore 10 (n + 1) n [] := rfl
  rw [hdata]
  exact toDigitsCore_ne_nl (n + 1) n [] (by simp)

theorem pnt_word_lines_no_nl : ∀ (ws : WordList) (a : Address),
    ∀ l ∈ pnt_word_lines ws a, ∀ c ∈ l, c ≠ '\n' := by
  intro ws
  induction ws with
  | nil => intro a l hl; simp [pnt_word_lines] at hl
  | cons w rest ih =>
      intro a l hl c hc
      unfold pnt_word_lines at hl
      rcases List.mem_cons.mp hl with h1 | h2
      · rw [h1] at hc
        rcases List.mem_append.mp hc with ha | hb
        · exact adss_to_str_no_nl a c ha
        · rcases List.mem_cons.mp hb with hsp | hw
          · rw [hsp]; decide
          · exact word_to_str_no_nl w c hw
      · exact ih (a + 1) l h2 c hc

theorem pnt_word_lines_ne_nil : ∀ (ws : WordList) (a : Address),
    ∀ l ∈ pnt_word_lines ws a, l ≠ [] := by
  intro ws
  induction ws with
  | nil => intro a l hl; simp [pnt_word_lines] at hl
  | cons w rest ih =>
      intro a l hl
      unfold pnt_word_lines at hl
      rcases List.mem_cons.mp hl with h1 | h2
      · rw [h1]
        simp
      · exact ih (a + 1) l h2

/-- C7 (amended): for non-empty code and data images the object file has no
blank line at all: its lines are exactly the header line followed by the
code payload lines and then, immediately, the data payload lines - the
newline printed between the two images only terminates the last code
line. -/
theorem c7_ob_no_blank_separator (code_img data_img : WordList)
    (hc : code_img ≠ []) (hd : data_img ≠ []) :
    split_lines (create_ob_file code_img data_img) =
      ((toString code_img.length).data ++ ' ' :: (toString data_img.length).data) ::
        (pnt_word_lines code_img INITIAL_LOAD_ADSS ++
          pnt_word_lines data_img (INITIAL_LOAD_ADSS + code_img.length)) ∧
    [] ∉ split_lines (create_ob_file code_img data_img) := by
  have hcl : pnt_word_lines code_img INITIAL_LOAD_ADSS ≠ [] := by
    cases code_img with
    | nil => exact absurd rfl hc
    | cons w rest => simp [pnt_word_lines]
  have hdl : pnt_word_lines data_img (INITIAL_LOAD_ADSS + code_img.length) ≠ [] := by
    cases data_img with
    | nil => exact absurd rfl hd
    | cons w rest => simp [pnt_word_lines]
  have hheader : ∀ c ∈ (toString code_img.length).data ++
      ' ' :: (toString data_img.length).data, c ≠ '\n' := by
    intro c hcm
    rcases List.mem_append.mp hcm with h1 | h2
    · exact natRepr_no_nl _ c h1
    · rcases List.mem_cons.mp h2 with hsp | h3
      · rw [hsp]; decide
      · exact natRepr_no_nl _ c h3
  have hsplit : split_lines (create_ob_file code_img data_img) =
      ((toString code_img.length).data ++ ' ' :: (toString data_img.length).data) ::
        (pnt_word_lines code_img INITIAL_LOAD_ADSS ++
          pnt_word_lines data_img (INITIAL_LOAD_ADSS + code_img.length)) := by
    have hform : create_ob_file code_img data_img =
        ((toString code_img.length).data ++ ' ' :: (toString data_img.length).data) ++
        '\n' :: (join_lines (pnt_word_lines code_img INITIAL_LOAD_ADSS) ++
          '\n' :: join_lines (pnt_word_lines data_img (INITIAL_LOAD_ADSS + code_img.length))) := by
      unfold create_ob_file pnt_word_list
      simp
    rw [hform, split_lines_append _ _ hheader,
      split_join_append _ _ (pnt_word_lines_no_nl code_img INITIAL_LOAD_ADSS) hcl,
      split_join _ (pnt_word_lines_no_nl data_img _) hdl]
  refine ⟨hsplit, ?_⟩
  rw [hsplit]
  intro hmem
  rcases List.mem_cons.mp hmem with h1 | h2
  · have : (' ' :: (toString data_img.length).data : List Char) ≠ [] := by simp
    rcases List.append_eq_nil.mp h1.symm with ⟨_, h⟩
    exact this h
  · rcases List.mem_append.mp h2 with h3 | h4
    · exact pnt_word_lines_ne_nil code_img INITIAL_LOAD_ADSS [] h3 rfl
    · exact pnt_word_lines_ne_nil data_img _ [] h4 rfl

/-- C7 witness: the concrete images of the program `stop` / `.data 5`. -/
theorem c7_ob_no_blank_separator_witness :
    split_lines (create_ob_file [(0x3c0004 : Word)] [(5 : Word)]) =
      ("1 1".data) :: ["0000100 3c0004".data, "0000101 000005".data] ∧
    [] ∉ split_lines (create_ob_file [(0x3c0004 : Word)] [(5 : Word)]) := by
  have h := c7_ob_no_blank_separator [(0x3c0004 : Word)] [(5 : Word)] (by decide) (by decide)
  refine ⟨?_, h.2⟩
  rw [h.1]
  rfl

/- ~~~ The bucket structure of a table built by successive installs ~~~ -/

theorem symb_hash_lt (s : List Char) : symb_hash s < SYMBT_HSIZE :=
  Nat.mod_lt _ (by norm_num [SYMBT_HSIZE])

theorem symb_inst_length (t : SymbolTable) (n : List Char) (w : Word) (e en d : Bool) :
    ((symb_inst t n w e en d).2).length = t.length := by
  unfold symb_inst
  split <;> simp

theorem symb_inst_bucket_eq (t : SymbolTable) (n : List Char) (w : Word) (e en d : Bool)
    (hn : symb_lookup t n = none) (hh : symb_hash n < t.length) :
    ((symb_inst t n w e en d).2).getD (symb_hash n) [] =
      (⟨n, w, e, en, d⟩ : Symbol) :: t.getD (symb_hash n) [] := by
  unfold symb_inst
  rw [if_neg (by simp [hn])]
  unfold List.getD
  rw [List.get?_eq_getElem?, List.getElem?_set_self hh]
  rfl

theorem symb_inst_bucket_ne (t : SymbolTable) (n : List Char) (w : Word) (e en d : Bool)
    (b : Nat) (hb : b ≠ symb_hash n) :
    ((symb_inst t n w e en d).2).getD b [] = t.getD b [] := by
  unfold symb_inst
  split
  · rfl
  · unfold List.getD
    rw [List.get?_eq_getElem?, List.get?_eq_getElem?, List.getElem?_set_ne (fun h => hb h.symm)]

theorem symb_lookup_inst_other (t : SymbolTable) (n : List Char) (w : Word) (e en d : Bool)
    (m : List Char) (hm : m ≠ n) (hh : symb_hash n < t.length) :
    symb_lookup ((symb_inst t n w e en d).2) m = symb_lookup t m := by
  by_cases hbuck : symb_hash m = symb_hash n
  · unfold symb_lookup
    rw [hbuck]
    cases hl : symb_lookup t n with
    | some s =>
        unfold symb_inst
        rw [if_pos (by simp [hl])]
    | none =>
        rw [symb_inst_bucket_eq t n w e en d hl hh]
        rw [List.find?_cons_of_neg _ (by simp; exact fun h => hm h.symm)]
  · unfold symb_lookup
    rw [symb_inst_bucket_ne t n w e en d _ hbuck]

theorem buildTable_bucket : ∀ (ds : List InstallReq) (t : SymbolTable),
    t.length = SYMBT_HSIZE →
    (∀ d ∈ ds, symb_lookup t d.name = none) →
    (ds.map InstallReq.name).Nodup →
    ∀ b : Nat,
      (ds.foldl (fun t d => (symb_inst t d.name d.rep_word d.is_extern d.is_entry d.is_data).2)
        t).getD b [] =
        ((ds.filter (fun d => symb_hash d.name = b)).reverse).map toSym ++ t.getD b [] := by
  intro ds
  induction ds with
  | nil => intro t _ _ _ b; simp
  | cons d rest ih =>
      intro t hlen hnone hnodup b
      have hdnone : symb_lookup t d.name = none := hnone d (by simp)
      have hdh : symb_hash d.name < t.length := by rw [hlen]; exact symb_hash_lt _
      have hlen1 : ((symb_inst t d.name d.rep_word d.is_extern d.is_entry d.is_data).2).length =
          SYMBT_HSIZE := by rw [symb_inst_length, hlen]
      have hnone1 : ∀ d' ∈ rest,
          symb_lookup ((symb_inst t d.name d.rep_word d.is_extern d.is_entry d.is_data).2) d'.name
            = none := by
        intro d' hd'
        have hne : d'.name ≠ d.name := by
          intro he
          have hmem : d.name ∈ rest.map InstallReq.name := by
            rw [← he]
            exact List.mem_map_of_mem _ hd'
          rw [List.map_cons] at hnodup
          exact (List.nodup_cons.mp hnodup).1 hmem
        rw [symb_lookup_inst_other t d.name d.rep_word d.is_extern d.is_entry d.is_data
          d'.name hne hdh]
        exact hnone d' (by simp [hd'])
      have hnodup1 : (rest.map InstallReq.name).Nodup := by
        rw [List.map_cons] at hnodup
        exact (List.nodup_cons.mp hnodup).2
      rw [List.foldl_cons, ih _ hlen1 hnone1 hnodup1 b]
      by_cases hb : symb_hash d.name = b
      · rw [← hb, symb_inst_bucket_eq t d.name d.rep_word d.is_extern d.is_entry d.is_data
          hdnone hdh]
        rw [List.filter_cons_of_pos (by simp [hb])]
        simp [toSym]
      · rw [symb_inst_bucket_ne t d.name d.rep_word d.is_extern d.is_entry d.is_data b
          (fun h => hb h.symm)]
        rw [List.filter_cons_of_neg (by simp [hb])]

theorem getD_replicate_nil (n b : Nat) :
    (List.replicate n ([] : List Symbol)).getD b [] = [] := by
  unfold List.getD
  rw [List.get?_eq_getElem?]
  cases hb : (List.replicate n ([] : List Symbol))[b]? with
  | none => rfl
  | some x =>
      have := List.getElem?_mem hb
      rw [List.eq_of_mem_replicate this]
      rfl

theorem table_eq_range_map (t : SymbolTable) (hlen : t.length = SYMBT_HSIZE) :
    t = (List.range SYMBT_HSIZE).map (fun b => t.getD b []) := by
  apply List.ext_getElem
  · simp [hlen]
  · intro i h1 h2
    simp only [List.getElem_map, List.getElem_range]
    unfold List.getD
    rw [List.get?_eq_getElem?, List.getElem?_eq_getElem (by omega : i < t.length)]
    rfl

theorem buildTable_length (ds : List InstallReq) : (buildTable ds).length = SYMBT_HSIZE := by
  unfold buildTable
  have h : ∀ (l : List InstallReq) (t : SymbolTable),
      (l.foldl (fun t d => (symb_inst t d.name d.rep_word d.is_extern d.is_entry d.is_data).2)
        t).length = t.length := by
    intro l
    induction l with
    | nil => intro t; rfl
    | cons d rest ih =>
        intro t
        rw [List.foldl_cons, ih, symb_inst_length]
  rw [h]
  simp [intlz_symbt]

theorem symb_lookup_intlz (n : List Char) : symb_lookup intlz_symbt n = none := by
  unfold symb_lookup intlz_symbt
  rw [getD_replicate_nil]
  rfl

/-- C4 (amended): the entries file lists the entry-flagged symbols of an
install sequence with distinct names (the declaration order) in
increasing hash-bucket order, and inside one bucket in the reverse of
declaration order - not in plain source-declaration order. -/
theorem c4_ent_bucket_order (ds : List InstallReq)
    (hnodup : (ds.map InstallReq.name).Nodup) :
    ent_lines (buildTable ds) =
      (List.range SYMBT_HSIZE).flatMap (fun b =>
        (((ds.filter (fun d => symb_hash d.name = b)).reverse).filter
          (fun d => d.is_entry = true)).map ent_line_of) := by
  have hbucket := buildTable_bucket ds intlz_symbt
    (by simp [intlz_symbt, SYMBT_HSIZE]) (fun d _ => symb_lookup_intlz d.name) hnodup
  unfold ent_lines
  rw [table_eq_range_map (buildTable ds) (buildTable_length ds), List.flatMap_map]
  congr 1
  funext b
  have hb := hbucket b
  unfold buildTable
  rw [hb]
  have hinit : intlz_symbt.getD b [] = [] := by
    unfold intlz_symbt
    exact getD_replicate_nil _ _
  rw [hinit, List.append_nil, List.filter_map, List.map_map]
  rfl

theorem c4_ent_bucket_order_witness :
    ((([⟨"b".data, 802, false, true, false⟩, ⟨"a".data, 810, false, true, false⟩]
        : List InstallReq).map InstallReq.name).Nodup) ∧
    ent_lines (buildTable [⟨"b".data, 802, false, true, false⟩,
        ⟨"a".data, 810, false, true, false⟩]) =
      (List.range SYMBT_HSIZE).flatMap (fun b =>
        ((([⟨"b".data, 802, false, true, false⟩, ⟨"a".data, 810, false, true, false⟩]
            : List InstallReq).filter (fun d => symb_hash d.name = b)).reverse.filter
          (fun d => d.is_entry = true)).map ent_line_of) :=
  ⟨by decide, c4_ent_bucket_order _ (by decide)⟩

/- ~~~ The external list is built in reverse appearance order ~~~ -/

theorem proc_opnd_2_ext (uc ue : Bool) (tok : List Char) (cia : Address) (st : St2) :
    ((proc_opnd_2 uc ue tok cia st).2).ext =
      (ext_ref_opnd uc ue tok cia st).reverse ++ st.ext := by
  unfold proc_opnd_2 ext_ref_opnd
  rcases hs : str_to_opnd_2 tok {} st.table cia with ⟨status, opnd⟩
  simp only [hs]
  repeat' split
  all_goals simp_all [ext_list_add]

theorem pi2_loop_ext : ∀ (fuel : Nat) (line : List Char) (b uc ue : Bool) (cia : Address)
    (st : St2),
    ((pi2_loop fuel line b uc ue cia st).2).ext =
      (ext_refs_loop fuel line b uc ue cia st).reverse ++ st.ext := by
  intro fuel
  induction fuel with
  | zero => intro line b uc ue cia st; rfl
  | succ n ih =>
      intro line b uc ue cia st
      unfold pi2_loop ext_refs_loop
      rcases hgt : get_token line with ⟨tok, rest⟩
      rcases hpo : proc_opnd_2 uc ue tok cia st with ⟨ost, st'⟩
      have hext : st'.ext = (ext_ref_opnd uc ue tok cia st).reverse ++ st.ext := by
        have h := proc_opnd_2_ext uc ue tok cia st
        rw [hpo] at h
        exact h
      rcases hgt2 : get_token rest with ⟨tok2, rest2⟩
      simp only [hgt, hpo, hgt2]
      repeat' split
      all_goals
        first
          | (rw [ih, hext]; try simp [List.reverse_append, List.append_assoc])
          | simp_all

theorem proc_inst_2_ext (uc ue : Bool) (line : List Char) (st : St2) :
    ((proc_inst_2 uc ue line st).2).ext =
      (ext_refs_inst uc ue line st).reverse ++ st.ext := by
  unfold proc_inst_2 ext_refs_inst
  by_cases h : (uc && decide (st.pos < st.code.length)) = true
  · simp only [if_pos h]
    exact pi2_loop_ext _ _ _ _ _ _ _
  · simp only [if_neg h]
    exact pi2_loop_ext _ _ _ _ _ _ _

theorem pl2_key_ext (kw line : List Char) (uc ue : Bool) (st : St2) :
    ((proc_line_2.proc_line_2_key kw line uc ue st).2).ext =
      (ext_refs_line.ext_refs_line_key kw line uc ue st).reverse ++ st.ext := by
  unfold proc_line_2.proc_line_2_key ext_refs_line.ext_refs_line_key
  rcases hg : proc_entry_guide line st.table with ⟨g, tb⟩
  repeat' split
  all_goals first
    | simp [hg]
    | simp [proc_inst_2_ext]

theorem proc_line_2_ext (uc ue : Bool) (line : List Char) (st : St2) :
    ((proc_line_2 uc ue line st).2).ext =
      (ext_refs_line uc ue line st).reverse ++ st.ext := by
  unfold proc_line_2 ext_refs_line
  rcases h1 : get_token line with ⟨t1, r1⟩
  rcases h2 : get_token r1 with ⟨t2, r2⟩
  simp only [h1, h2]
  repeat' split
  all_goals first
    | simp
    | exact pl2_key_ext _ _ _ _ _

theorem run2_lines_ext : ∀ (ls : List (List Char)) (st : St2) (status : Ind),
    ((run2_lines ls st status).2).ext =
      (ext_refs_lines ls st status).reverse ++ st.ext := by
  intro ls
  induction ls with
  | nil => intro st status; simp [run2_lines, ext_refs_lines]
  | cons l rest ih =>
      intro st status
      unfold run2_lines ext_refs_lines
      by_cases hlen : l.length > MAX_LINE_LEN
      · simp only [if_pos hlen]
        exact ih _ _
      · simp only [if_neg hlen]
        by_cases hst : status ≠ Ind.INP_ERROR
        · simp only [if_pos hst]
          rcases hp : proc_line_2 true true l st with ⟨r, st'⟩
          have hext : st'.ext = (ext_refs_line true true l st).reverse ++ st.ext := by
            have h := proc_line_2_ext true true l st
            rw [hp] at h
            exact h
          simp only [hp]
          rw [ih, hext, List.reverse_append, List.append_assoc]
        · simp only [if_neg hst]
          rcases hp : proc_line_2 false false l st with ⟨r, st'⟩
          have hext : st'.ext = st.ext := by
            have h := (proc_line_2_null l st).2
            rw [hp] at h
            exact h
          simp only [hp]
          rw [ih, hext]

/-- C3 (amended): the external-reference list built by the second scan is
exactly the reverse of the references' textual appearance order (so the
.ext file lists them last reference first), for every source, code image,
symbol table and initial status. -/
theorem c3_ext_reverse_appearance (lines : List (List Char)) (code_img : WordList)
    (table : SymbolTable) (status : Ind) :
    ((run_2nd_scan lines code_img table status).2).ext =
      (ext_refs_run lines code_img table status).reverse := by
  unfold run_2nd_scan ext_refs_run
  rw [run2_lines_ext]
  simp

/- ~~~ Data symbols of the first scan: the invariant machinery ~~~ -/

theorem cast_mod_toNat (n k : Nat) : ((n : Int) % ((2 : Int) ^ k)).toNat = n % 2 ^ k := by
  have h : (n : Int) % ((2 : Int) ^ k) = ((n % 2 ^ k : Nat) : Int) := by
    push_cast
    rfl
  rw [h]
  omega

theorem mem_getD_mem (t : List (List Symbol)) (i : Nat) (s : Symbol) :
    s ∈ t.getD i [] → ∃ b ∈ t, s ∈ b := by
  unfold List.getD
  rw [List.get?_eq_getElem?]
  cases hg : t[i]? with
  | none => intro hs; simp at hs
  | some b =>
      intro hs
      exact ⟨b, List.getElem?_mem hg, hs⟩

theorem symb_inst_mem (t : SymbolTable) (name : List Char) (w : Word) (e en d : Bool) :
    ∀ b ∈ (symb_inst t name w e en d).2, ∀ s ∈ b,
      s = ⟨name, w, e, en, d⟩ ∨ ∃ b₀ ∈ t, s ∈ b₀ := by
  unfold symb_inst
  split
  · intro b hb s hs
    right
    exact ⟨b, hb, hs⟩
  · intro b hb s hs
    rcases List.mem_or_eq_of_mem_set hb with hb₀ | rfl
    · right
      exact ⟨b, hb₀, hs⟩
    · rcases List.mem_cons.mp hs with rfl | hs₀
      · left
        rfl
      · right
        exact mem_getD_mem _ _ _ hs₀

theorem rep_word_wbits (adss : Nat) :
    wbits (set_word_field NON_ARE
      (set_word_field ARE (0 : Word) ((ARE_R_set : Nat) : Int) 0) ((adss : Nat) : Int) 3) =
      adss % 2 ^ 21 * 8 + 2 := by
  have h1 : set_word_field ARE (0 : Word) ((ARE_R_set : Nat) : Int) 0 = ((2 : Nat) : Int) := by
    rw [set_word_field_are 0 ARE_R_set (by norm_num [ARE_R_set])]
    have h0 : wbits (0 : Word) = 0 := rfl
    rw [h0]
    norm_num [ARE_R_set]
  rw [h1, set_word_field_nonare]
  have h2 : wbits ((2 : Nat) : Int) = 2 := wbits_of_small (by norm_num)
  rw [h2, cast_mod_toNat, wbits_ofNat]
  have h3 : adss % 2 ^ 21 < 2 ^ 21 := Nat.mod_lt _ (by norm_num)
  have h21 : (2 : Nat) ^ 21 = 2097152 := by norm_num
  have h24 : (2 : Nat) ^ 24 = 16777216 := by norm_num
  rw [h21, h24] at *
  omega

theorem dsym_inv_mono {t : SymbolTable} {dlen : Nat} {offs : List (List Char × Nat)}
    {dlen' : Nat} {offs' : List (List Char × Nat)} (h : dsym_inv t dlen offs)
    (hd : dlen ≤ dlen') (ho : ∀ p ∈ offs, p ∈ offs') : dsym_inv t dlen' offs' := by
  intro b hb s hs hsd
  rcases h b hb s hs hsd with ⟨off, h1, h2, h3⟩
  exact ⟨off, ho _ h1, le_trans h2 hd, h3⟩

theorem dsym_inv_symb_inst (t : SymbolTable) (name : List Char) (w : Word) (e en d : Bool)
    (dlen : Nat) (offs : List (List Char × Nat)) (h : dsym_inv t dlen offs)
    (hnew : d = true → ∃ off, (name, off) ∈ offs ∧ off ≤ dlen ∧
      wbits w = off % 2 ^ 21 * 8 + 2) :
    dsym_inv (symb_inst t name w e en d).2 dlen offs := by
  intro b hb s hs hsd
  rcases symb_inst_mem t name w e en d b hb s hs with rfl | ⟨b₀, hb₀, hs₀⟩
  · rcases hnew hsd with ⟨off, h1, h2, h3⟩
    exact ⟨off, h1, h2, h3⟩
  · exact h b₀ hb₀ s hs₀ hsd

theorem new_symb_add_1_table (t : SymbolTable) (name : List Char) (adss : Nat) (e d : Bool) :
    (new_symb_add_1 t name adss e d).2 = t ∨
    (new_symb_add_1 t name adss e d).2 =
      (symb_inst t name
        (set_word_field NON_ARE
          (set_word_field ARE (0 : Word) (if e = true then (ARE_E_set : Int) else (ARE_R_set : Int)) 0)
          ((adss : Nat) : Int) 3) e false d).2 := by
  unfold new_symb_add_1
  split
  · left
    rfl
  · rcases h : symb_inst t name
      (set_word_field NON_ARE
        (set_word_field ARE (0 : Word) (if e = true then (ARE_E_set : Int) else (ARE_R_set : Int)) 0)
        ((adss : Nat) : Int) 3) e false d with ⟨si, t'⟩
    right
    cases si <;> simp [h]

theorem dsym_inv_new_symb (t : SymbolTable) (name : List Char) (adss : Nat) (e d : Bool)
    (dlen : Nat) (offs : List (List Char × Nat)) (h : dsym_inv t dlen offs)
    (he : d = true → e = false)
    (hnew : d = true → (name, adss) ∈ offs ∧ adss ≤ dlen) :
    dsym_inv (new_symb_add_1 t name adss e d).2 dlen offs := by
  rcases new_symb_add_1_table t name adss e d with heq | heq
  · rw [heq]
    exact h
  · rw [heq]
    apply dsym_inv_symb_inst _ _ _ _ _ _ _ _ h
    intro hd
    rcases hnew hd with ⟨hmem, hle⟩
    have he' := he hd
    subst he'
    refine ⟨adss, hmem, hle, ?_⟩
    have hif : (if (false : Bool) = true then (ARE_E_set : Int) else (ARE_R_set : Int)) =
        ((ARE_R_set : Nat) : Int) := rfl
    rw [hif, rep_word_wbits]

theorem dsym_inv_new_symb_nondata (t : SymbolTable) (name : List Char) (adss : Nat) (e : Bool)
    (dlen : Nat) (offs : List (List Char × Nat)) (h : dsym_inv t dlen offs) :
    dsym_inv (new_symb_add_1 t name adss e false).2 dlen offs :=
  dsym_inv_new_symb t name adss e false dlen offs h
    (fun hd => absurd hd (by decide)) (fun hd => absurd hd (by decide))

theorem dsym_inv_proc_extern (line : List Char) (t : SymbolTable) (dlen : Nat)
    (offs : List (List Char × Nat)) (h : dsym_inv t dlen offs) :
    dsym_inv (proc_extern_guide_1 line t).2 dlen offs := by
  unfold proc_extern_guide_1
  rcases hgt : get_token line with ⟨tok, rest⟩
  rcases hns : new_symb_add_1 t tok 0 true false with ⟨r, t'⟩
  have ht' : dsym_inv t' dlen offs := by
    have hx := dsym_inv_new_symb_nondata t tok 0 true dlen offs h
    rw [hns] at hx
    exact hx
  simp only [hgt, hns]
  split
  · exact h
  · cases r <;> exact ht'

theorem pdg_loop_data : ∀ (fuel : Nat) (line : List Char) (use : Bool) (d : WordList),
    ∃ t, (pdg_loop fuel line use d).2 = d ++ t := by
  intro fuel
  induction fuel with
  | zero => intro line use d; exact ⟨[], by simp [pdg_loop]⟩
  | succ n ih =>
      intro line use d
      unfold pdg_loop
      rcases hc : comma_check line with ⟨cst, rest⟩
      simp only [hc]
      split
      · exact ⟨[], by simp⟩
      · split
        · rename_i w r2 heq
          rcases ih r2 use (if use = true then d ++ [w] else d) with ⟨t, ht⟩
          by_cases hu : use = true
          · rw [if_pos hu] at ht
            exact ⟨[w] ++ t, by rw [if_pos hu, ht, List.append_assoc]⟩
          · rw [if_neg hu] at ht
            exact ⟨t, by rw [if_neg hu, ht]⟩
        · exact ⟨[], by simp⟩

theorem proc_data_guide_data (line : List Char) (use : Bool) (d : WordList) :
    ∃ t, (proc_data_guide line use d).2 = d ++ t := by
  unfold proc_data_guide
  rcases hg : get_data_word line with ⟨gs, ow, rest⟩
  simp only [hg]
  split
  · rename_i w r heq
    rcases pdg_loop_data (r.length + 1) r use (if use = true then d ++ [w] else d) with ⟨t, ht⟩
    rcases hp : pdg_loop (r.length + 1) r use (if use = true then d ++ [w] else d) with ⟨lst, d2⟩
    rw [hp] at ht
    simp only [hp]
    by_cases hu : use = true
    · rw [if_pos hu] at ht
      refine ⟨[w] ++ t, ?_⟩
      split <;> simpa [List.append_assoc] using ht
    · rw [if_neg hu] at ht
      refine ⟨t, ?_⟩
      split <;> simpa using ht
  · exact ⟨[], by simp⟩

theorem proc_string_guide_data (line : List Char) (use : Bool) (d : WordList) :
    ∃ t, (proc_string_guide line use d).2 = d ++ t := by
  unfold proc_string_guide
  rcases hs : get_char_string line with ⟨st, out⟩
  simp only [hs]
  split
  · exact ⟨[], by simp⟩
  · split
    · exact ⟨out.map char_to_word ++ [(0 : Word)], by simp⟩
    · exact ⟨[], by simp⟩

theorem run1_lines_err : ∀ (ls : List (List Char)) (st : St1),
    (run1_lines ls st Ind.INP_ERROR).1 = Ind.INP_ERROR := by
  intro ls
  induction ls with
  | nil => intro st; rfl
  | cons l rest ih =>
      intro st
      unfold run1_lines
      by_cases h : l.length > MAX_LINE_LEN
      · rw [if_pos h]
        exact ih _
      · rw [if_neg h, if_neg (by simp)]
        rcases hp : proc_line_1 false l st with ⟨r, st'⟩
        simp only [hp]
        exact ih _

theorem dsym_inv_proc_guidance_1 (line gname sn : List Char) (dec : Bool) (st : St1)
    (offs : List (List Char × Nat)) (h : dsym_inv st.table st.data.length offs)
    (hdec : (guide_check gname = some GuideNum.g_data ∨
        guide_check gname = some GuideNum.g_string) →
      dec = true → (sn, st.data.length) ∈ offs) :
    dsym_inv (proc_guidance_1 line gname sn dec true st).2.table
      (proc_guidance_1 line gname sn dec true st).2.data.length offs := by
  unfold proc_guidance_1
  split
  · exact h
  cases hgc : guide_check gname with
  | none => exact h
  | some g =>
      cases g with
      | g_entry => exact h
      | g_extern =>
          rcases hpe : proc_extern_guide_1 line st.table with ⟨gst, t'⟩
          simp only [hpe]
          have hx := dsym_inv_proc_extern line st.table st.data.length offs h
          rw [hpe] at hx
          exact hx
      | g_data =>
          rcases hpd : proc_data_guide line true st.data with ⟨gst, data'⟩
          rcases proc_data_guide_data line true st.data with ⟨t, hdt⟩
          rw [hpd] at hdt
          have hdt2 : data' = st.data ++ t := hdt
          by_cases hdec' : dec = true
          · subst hdec'
            rcases hns : new_symb_add_1 st.table sn (if (true : Bool) = true then st.data.length else 0)
              false true with ⟨ds, t'⟩
            have ht' : dsym_inv t' st.data.length offs := by
              have hx := dsym_inv_new_symb st.table sn
                (if (true : Bool) = true then st.data.length else 0) false true st.data.length
                offs h (fun _ => rfl)
                (fun _ => ⟨hdec (Or.inl hgc) rfl, le_refl _⟩)
              rw [hns] at hx
              exact hx
            simp only [if_pos rfl, hns]
            cases ds
            all_goals
              first
                | exact ht'
                | exact dsym_inv_mono ht' (by rw [hdt2]; simp; try omega) (fun p hp => hp)
          · have hd0 : dec = false := by revert hdec'; cases dec <;> simp
            subst hd0
            simp only [if_neg (by decide : ¬((false : Bool) = true)),
              if_neg (by decide : ¬(Ind.ALL_GOOD = Ind.INP_ERROR)), hpd]
            exact dsym_inv_mono h (by rw [hdt2]; simp) (fun p hp => hp)
      | g_string =>
          rcases hpd : proc_string_guide line true st.data with ⟨gst, data'⟩
          rcases proc_string_guide_data line true st.data with ⟨t, hdt⟩
          rw [hpd] at hdt
          have hdt2 : data' = st.data ++ t := hdt
          by_cases hdec' : dec = true
          · subst hdec'
            rcases hns : new_symb_add_1 st.table sn (if (true : Bool) = true then st.data.length else 0)
              false true with ⟨ds, t'⟩
            have ht' : dsym_inv t' st.data.length offs := by
              have hx := dsym_inv_new_symb st.table sn
                (if (true : Bool) = true then st.data.length else 0) false true st.data.length
                offs h (fun _ => rfl)
                (fun _ => ⟨hdec (Or.inr hgc) rfl, le_refl _⟩)
              rw [hns] at hx
              exact hx
            simp only [if_pos rfl, hns]
            cases ds
            all_goals
              first
                | exact ht'
                | exact dsym_inv_mono ht' (by rw [hdt2]; simp; try omega) (fun p hp => hp)
          · have hd0 : dec = false := by revert hdec'; cases dec <;> simp
            subst hd0
            simp only [if_neg (by decide : ¬((false : Bool) = true)),
              if_neg (by decide : ¬(Ind.ALL_GOOD = Ind.INP_ERROR)), hpd]
            exact dsym_inv_mono h (by rw [hdt2]; simp) (fun p hp => hp)

theorem dsym_inv_proc_inst_1 (line iname sn : List Char) (dec : Bool) (st : St1)
    (offs : List (List Char × Nat)) (h : dsym_inv st.table st.data.length offs) :
    dsym_inv (proc_inst_1 line iname sn dec true st).2.table
      (proc_inst_1 line iname sn dec true st).2.data.length offs := by
  unfold proc_inst_1
  by_cases hdec : dec = true
  · subst hdec
    rcases hns : new_symb_add_1 st.table sn
      (if (true : Bool) = true then st.code.length + INITIAL_LOAD_ADSS else 0) false false
      with ⟨ds, t'⟩
    have ht' : dsym_inv t' st.data.length offs := by
      have hx := dsym_inv_new_symb_nondata st.table sn
        (if (true : Bool) = true then st.code.length + INITIAL_LOAD_ADSS else 0) false
        st.data.length offs h
      rw [hns] at hx
      exact hx
    simp only [if_pos rfl]
    cases ds <;> cases hfa : find_ass_inst iname <;> simpa using ht'
  · have hd0 : dec = false := by revert hdec; cases dec <;> simp
    subst hd0
    simp only [if_neg (by decide : ¬((false : Bool) = true))]
    cases hfa : find_ass_inst iname <;> simpa using h

theorem dsym_inv_proc_line_1_key (kw sn : List Char) (dec : Bool) (line : List Char)
    (st : St1) (offs : List (List Char × Nat)) (h : dsym_inv st.table st.data.length offs)
    (hdec : kw.headD ' ' = '.' →
      (guide_check kw.tail = some GuideNum.g_data ∨
        guide_check kw.tail = some GuideNum.g_string) →
      dec = true → (sn, st.data.length) ∈ offs) :
    dsym_inv (proc_line_1.proc_line_1_key kw sn dec line true st).2.table
      (proc_line_1.proc_line_1_key kw sn dec line true st).2.data.length offs := by
  unfold proc_line_1.proc_line_1_key
  split
  · exact h
  · split
    · rename_i hne hdot
      exact dsym_inv_proc_guidance_1 line kw.tail sn dec st offs h (hdec hdot)
    · exact dsym_inv_proc_inst_1 line kw sn dec st offs h

theorem proc_line_1_inv (l : List Char) (st : St1) (offs : List (List Char × Nat))
    (h : dsym_inv st.table st.data.length offs) :
    dsym_inv (proc_line_1 true l st).2.table (proc_line_1 true l st).2.data.length
      (offs ++ line_data_offsets l st) := by
  have hmono : dsym_inv st.table st.data.length (offs ++ line_data_offsets l st) :=
    dsym_inv_mono h (le_refl _) (fun p hp => List.mem_append_left _ hp)
  by_cases hc : l.headD ' ' = ';'
  · simp only [proc_line_1, if_pos hc]
    exact hmono
  · rcases h1 : get_token l with ⟨t1, r1⟩
    simp only [proc_line_1, if_neg hc, h1]
    by_cases ht1 : t1 = []
    · simp only [if_pos ht1]
      exact hmono
    · simp only [if_neg ht1]
      by_cases hcol : t1.getLastD ' ' = ':'
      · simp only [if_pos hcol]
        rcases h2 : get_token r1 with ⟨t2, r2⟩
        simp only [h2]
        by_cases ht2 : t2 = []
        · simp only [if_pos ht2]
          exact hmono
        · simp only [if_neg ht2]
          apply dsym_inv_proc_line_1_key _ _ _ _ _ _ hmono
          intro hdot hg _
          have hoff : line_data_offsets l st = [(t1.dropLast, st.data.length)] := by
            simp only [line_data_offsets, if_neg hc, h1, if_neg ht1, if_pos hcol, h2,
              if_neg ht2, if_pos hdot]
            rcases hg with hg | hg <;> simp [hg]
          rw [hoff]
          exact List.mem_append_right _ (by simp)
      · simp only [if_neg hcol]
        apply dsym_inv_proc_line_1_key _ _ _ _ _ _ hmono
        intro _ _ hfalse
        exact absurd hfalse (by decide)

theorem run1_lines_inv : ∀ (ls : List (List Char)) (st : St1) (status : Ind)
    (offs : List (List Char × Nat)) (res : St1),
    dsym_inv st.table st.data.length offs →
    run1_lines ls st status = (Ind.ALL_GOOD, res) →
    dsym_inv res.table res.data.length (offs ++ scan1_offsets ls st) := by
  intro ls
  induction ls with
  | nil =>
      intro st status offs res h hrun
      unfold run1_lines at hrun
      rw [Prod.mk.injEq] at hrun
      obtain ⟨h1, h2⟩ := hrun
      subst h2
      simpa [scan1_offsets] using h
  | cons l rest ih =>
      intro st status offs res h hrun
      unfold run1_lines at hrun
      by_cases hlen : l.length > MAX_LINE_LEN
      · rw [if_pos hlen] at hrun
        have herr := run1_lines_err rest st
        rw [hrun] at herr
        simp at herr
      · rw [if_neg hlen] at hrun
        by_cases hst : status ≠ Ind.INP_ERROR
        · rw [if_pos hst] at hrun
          rcases hp : proc_line_1 true l st with ⟨r, st'⟩
          rw [hp] at hrun
          have h' := proc_line_1_inv l st offs h
          rw [hp] at h'
          have hres := ih st' _ _ res h' hrun
          simp only [scan1_offsets, if_neg hlen, hp]
          rw [← List.append_assoc]
          exact hres
        · rw [if_neg hst] at hrun
          have hse : status = Ind.INP_ERROR := by
            revert hst
            simp
          subst hse
          rcases hp : proc_line_1 false l st with ⟨r, st'⟩
          rw [hp] at hrun
          have hrun2 : run1_lines rest st' Ind.INP_ERROR = (Ind.ALL_GOOD, res) := hrun
          have herr := run1_lines_err rest st'
          rw [hrun2] at herr
          simp at herr

theorem are_field_set_nonare (w : Word) (v : Int) :
    are_field (set_word_field NON_ARE w v 3) = are_field w := by
  unfold are_field
  rw [set_word_field_nonare, wbits_ofNat]
  have h1 := int_emod_two_pow_toNat v 21
  have hw := wbits_lt w
  have h21 : (2 : Nat) ^ 21 = 2097152 := by norm_num
  have h24 : (2 : Nat) ^ 24 = 16777216 := by norm_num
  have h2 : (v % ((2 : Int) ^ 21)).toNat < 2097152 := by omega
  rw [h24]
  omega

theorem shifted_word_arith (w : Word) (off inc : Nat)
    (hw : wbits w = off % 2 ^ 21 * 8 + 2) (hlt : off + inc < 2 ^ 21) :
    get_symb_adss (set_word_field NON_ARE w ((get_symb_adss w + inc : Nat) : Int) 3) =
      off + inc ∧
    are_field (set_word_field NON_ARE w ((get_symb_adss w + inc : Nat) : Int) 3) = ARE_R_set := by
  have h21 : (2 : Nat) ^ 21 = 2097152 := by norm_num
  have h24 : (2 : Nat) ^ 24 = 16777216 := by norm_num
  rw [h21] at hw hlt
  have hoff : off % 2097152 = off := Nat.mod_eq_of_lt (by omega)
  have hadss : get_symb_adss w = off := by
    unfold get_symb_adss
    rw [hw, hoff]
    omega
  constructor
  · rw [hadss]
    unfold get_symb_adss
    rw [set_word_field_nonare, wbits_ofNat, cast_mod_toNat, hw, h21, h24]
    omega
  · rw [hadss]
    unfold are_field ARE_R_set
    rw [set_word_field_nonare, wbits_ofNat, cast_mod_toNat, hw, h21, h24]
    omega

theorem inc_data_are_fields (t : SymbolTable) (v : Nat) :
    (inc_data t v).map (List.map (fun s => are_field s.rep_word)) =
      t.map (List.map (fun s => are_field s.rep_word)) := by
  unfold inc_data
  rw [List.map_map]
  congr 1
  funext b
  rw [Function.comp_apply, List.map_map]
  congr 1
  funext s
  rw [Function.comp_apply]
  split
  · exact are_field_set_nonare _ _
  · rfl

/-- C6: after the first scan of an error-free source (including the
inter-pass shift of inc_data), every data symbol's address is its
zero-based offset in the data image plus the code-image size plus
INITIAL_LOAD_ADSS, with ARE = R; and the shift leaves every symbol's ARE
field unchanged.  The size hypothesis keeps the shifted address inside
the 21-bit address field. -/
theorem c6_data_symbol_addresses (lines : List (List Char)) (st : St1)
    (hrun : run_1st_scan lines = (Ind.ALL_GOOD, st))
    (hsize : st.data.length + st.code.length + INITIAL_LOAD_ADSS < 2 ^ 21) :
    (∀ bucket ∈ st.table, ∀ s ∈ bucket, s.is_data = true →
      ∃ off, (s.name, off) ∈ run1_offsets lines ∧
        get_symb_adss s.rep_word = off + st.code.length + INITIAL_LOAD_ADSS ∧
        are_field s.rep_word = ARE_R_set) ∧
    (∀ (t : SymbolTable) (v : Nat),
      (inc_data t v).map (List.map (fun s => are_field s.rep_word)) =
        t.map (List.map (fun s => are_field s.rep_word))) := by
  refine ⟨?_, fun t v => inc_data_are_fields t v⟩
  unfold run_1st_scan at hrun
  rcases hr : run1_lines lines ⟨[], [], intlz_symbt⟩ Ind.ALL_GOOD with ⟨status, st₀⟩
  rw [hr] at hrun
  rw [Prod.mk.injEq] at hrun
  obtain ⟨hstat, hst⟩ := hrun
  subst hstat
  have hinv₀ : dsym_inv (⟨[], [], intlz_symbt⟩ : St1).table 0 [] := by
    intro b hb s hs _
    rw [List.eq_of_mem_replicate hb] at hs
    simp at hs
  have hinv := run1_lines_inv lines _ _ [] st₀ hinv₀ hr
  simp only [List.nil_append] at hinv
  subst hst
  intro bucket hb s hs hsd
  simp only [inc_data] at hb
  rcases List.mem_map.mp hb with ⟨b₀, hb₀, rfl⟩
  rcases List.mem_map.mp hs with ⟨s₀, hs₀, rfl⟩
  by_cases hd : s₀.is_data = true
  · simp only [if_pos hd] at hsd ⊢
    obtain ⟨off, hmem, hle, hw⟩ := hinv b₀ hb₀ s₀ hs₀ hd
    have hsize2 : st₀.data.length + st₀.code.length + INITIAL_LOAD_ADSS < 2 ^ 21 := hsize
    have h21 : (2 : Nat) ^ 21 = 2097152 := by norm_num
    have hlt : off + (st₀.code.length + INITIAL_LOAD_ADSS) < 2 ^ 21 := by
      rw [h21] at hsize2 ⊢
      omega
    obtain ⟨ha, hare⟩ := shifted_word_arith s₀.rep_word off
      (st₀.code.length + INITIAL_LOAD_ADSS) hw hlt
    refine ⟨off, ?_, ?_, ?_⟩
    · simpa [run1_offsets] using hmem
    · simpa [Nat.add_assoc] using ha
    · simpa using hare
  · simp only [if_neg hd] at hsd ⊢
    exact absurd hsd hd

theorem c6_data_symbol_addresses_witness :
    run_1st_scan ["x: .data 7".data, "stop".data] =
      (Ind.ALL_GOOD, (run_1st_scan ["x: .data 7".data, "stop".data]).2) ∧
    (run_1st_scan ["x: .data 7".data, "stop".data]).2.data.length +
      (run_1st_scan ["x: .data 7".data, "stop".data]).2.code.length + INITIAL_LOAD_ADSS <
        2 ^ 21 ∧
    ((∀ bucket ∈ (run_1st_scan ["x: .data 7".data, "stop".data]).2.table, ∀ s ∈ bucket,
        s.is_data = true →
        ∃ off, (s.name, off) ∈ run1_offsets ["x: .data 7".data, "stop".data] ∧
          get_symb_adss s.rep_word =
            off + (run_1st_scan ["x: .data 7".data, "stop".data]).2.code.length +
              INITIAL_LOAD_ADSS ∧
          are_field s.rep_word = ARE_R_set) ∧
      (∀ (t : SymbolTable) (v : Nat),
        (inc_data t v).map (List.map (fun s => are_field s.rep_word)) =
          t.map (List.map (fun s => are_field s.rep_word)))) :=
  ⟨by decide, by decide,
    c6_data_symbol_addresses ["x: .data 7".data, "stop".data] _ (by decide) (by decide)⟩

end Asm
